import Mathlib

/-!
Verification of the toffee terraform-wrapper core engines:
the environment discovery/validation engine (`toffee/core/environment.py`)
and the command-building/execution engine (`toffee/core/terraform.py`).

The Python code is shallowly embedded:
* the filesystem is a `World` value (regular files with contents, directories,
  and a queue of injectable I/O faults); `os.path.isfile` / `os.path.exists`
  become lookups into that value;
* Python `dict[str, Environment]` becomes an insertion-ordered association
  list with unique keys, with `d[k] = v` embedded as `dictInsert`;
* a spawned child process is summarised by a `SpawnResult` (the child either
  completed with an exit code and captured streams, or the spawn raised);
* functions that can raise return `Except String`.
-/

namespace Toffee

/-! ## Basic string machinery

Python string primitives used by the source (`startswith`, `in`, `sorted`,
`", ".join`, `re.search`) are embedded as executable functions on `List Char`.
Python compares strings lexicographically by code point, which `leChars`
mirrors via `Char.lt`.
-/

/-- Boolean test that `p` is a prefix of `s` (Python `s.startswith(p)` reads
`isPrefixL p.data s.data`). -/
def isPrefixL : List Char → List Char → Bool
  | [], _ => true
  | _ :: _, [] => false
  | c :: p, x :: s => c = x && isPrefixL p s

/-- Leftmost substring search: Python `p in s` / `re.search` on a pattern that
is a plain literal. -/
def searchLit (p : List Char) : List Char → Bool
  | [] => isPrefixL p []
  | c :: cs => isPrefixL p (c :: cs) || searchLit p cs

/-- Python `needle in hay`. -/
def strContains (hay needle : String) : Bool := searchLit needle.data hay.data

/-- Python `s.startswith(pre)`. -/
def strStartsWith (s pre : String) : Bool := isPrefixL pre.data s.data

/-- Python `s.endswith(suf)`. -/
def strEndsWith (s suf : String) : Bool := isPrefixL suf.data.reverse s.data.reverse

/-- Lexicographic (code-point) comparison, the order Python `sorted` uses on
strings. -/
def leChars : List Char → List Char → Bool
  | [], _ => true
  | _ :: _, [] => false
  | c :: cs, d :: ds => if c < d then true else if d < c then false else leChars cs ds

/-- Python `a <= b` on strings. -/
def strLe (a b : String) : Bool := leChars a.data b.data

/-- Stable insertion into an ascending list, auxiliary to `sortStrings`. -/
def insertSorted (x : String) : List String → List String
  | [] => [x]
  | y :: ys => if strLe x y then x :: y :: ys else y :: insertSorted x ys

/-- Python `sorted(list_of_strings)`.  The registry keys it is applied to are
unique, so any ascending ordering agrees with Python's stable sort. -/
def sortStrings : List String → List String
  | [] => []
  | x :: xs => insertSorted x (sortStrings xs)

/-- Python `", ".join(xs)`, as used for the validation error message. -/
def commaJoin : List String → String
  | [] => ""
  | [x] => x
  | x :: y :: xs => x ++ ", " ++ commaJoin (y :: xs)

/-! ## Filesystem model -/

/-- A snapshot of the parts of the outside world the tool touches: regular
files (path with content), directories, and a queue of injectable I/O faults.
Each fallible I/O primitive consumes the head of `failures`; `some msg` makes
that primitive raise `msg` (modelling `OSError` and friends), `none` (or an
exhausted queue) makes it succeed. -/
structure World where
  files : List (String × String)
  dirs : List String
  failures : List (Option String)
deriving DecidableEq

/-- Python `os.path.isfile p`. -/
def isFile (w : World) (p : String) : Bool := w.files.any (fun f => f.1 == p)

/-- Python `os.path.isdir p`. -/
def isDir (w : World) (p : String) : Bool := w.dirs.any (fun d => d == p)

/-- Python `os.path.exists p` (true for files and directories). -/
def pathExists (w : World) (p : String) : Bool := isFile w p || isDir w p

/-- Content of the file at `p`, if a file is there. -/
def lookupFile (w : World) (p : String) : Option String :=
  (w.files.find? (fun f => f.1 == p)).map (fun f => f.2)

/-- Python `os.path.join dir name` for the relative, slash-free names the tool
joins (`vars` + `dev.tfvars`). -/
def pathJoin (dir name : String) : String := dir ++ "/" ++ name

/-- Consume one entry of the fault queue. -/
def popFailure (w : World) : Option String × World :=
  match w.failures with
  | [] => (none, w)
  | f :: rest => (f, { w with failures := rest })

/-- Python `os.makedirs(d, exist_ok=True)`: may raise, otherwise ensures the
directory exists. -/
def makedirsOp (w : World) (d : String) : Except (String × World) World :=
  match popFailure w with
  | (some msg, w₁) => .error (msg, w₁)
  | (none, w₁) =>
      .ok { w₁ with dirs := if w₁.dirs.any (fun x => x == d) then w₁.dirs else w₁.dirs ++ [d] }

/-- Python `open(p, "w"); f.write(c)`: may raise, otherwise stores content `c`
at path `p`. -/
def writeFileOp (w : World) (p c : String) : Except (String × World) World :=
  match popFailure w with
  | (some msg, w₁) => .error (msg, w₁)
  | (none, w₁) =>
      if w₁.files.any (fun f => f.1 == p) then
        .ok { w₁ with files := w₁.files.map (fun f => if f.1 == p then (p, c) else f) }
      else
        .ok { w₁ with files := w₁.files ++ [(p, c)] }

/-! ## Environment entity (`toffee/core/environment.py`, `Environment`) -/

/-- One deployment target: a name plus the two conventional file paths. -/
structure Environment where
  name : String
  vars_file : String
  backend_file : String
deriving DecidableEq

/-- Source `Environment.is_valid`: both files exist (re-stats the filesystem,
hence the `World` argument). -/
def Environment.is_valid (e : Environment) (w : World) : Bool :=
  isFile w e.vars_file && isFile w e.backend_file

/-! ## Command catalog (`toffee/core/terraform.py`, `TerraformCommand`,
`TerraformRunner.COMMANDS`) -/

/-- One catalog entry.  The dataclass defaults `needs_vars_file=True`,
`needs_backend_config=False`; `__post_init__` turns a missing `default_args`
into `[]`, embedded as the `[]` default. -/
structure TerraformCommand where
  name : String
  description : String
  needs_vars_file : Bool := true
  needs_backend_config : Bool := false
  default_args : List String := []
deriving DecidableEq

/-- The static `COMMANDS` table, in source order (Python dicts preserve
insertion order). -/
def COMMANDS : List (String × TerraformCommand) :=
  [ ("init", { name := "init", description := "Initialize a Terraform working directory",
               needs_vars_file := false, needs_backend_config := true }),
    ("plan", { name := "plan", description := "Create an execution plan",
               needs_vars_file := true }),
    ("apply", { name := "apply", description := "Apply changes to infrastructure",
                needs_vars_file := true }),
    ("destroy", { name := "destroy", description := "Destroy Terraform-managed infrastructure",
                  needs_vars_file := true }),
    ("refresh", { name := "refresh", description := "Update local state file against real resources",
                  needs_vars_file := true }),
    ("output", { name := "output", description := "Show output values from your infrastructure",
                 needs_vars_file := false }),
    ("validate", { name := "validate", description := "Validate the configuration files",
                   needs_vars_file := false }),
    ("fmt", { name := "fmt", description := "Format the configuration files",
              needs_vars_file := false, needs_backend_config := false }),
    ("state", { name := "state", description := "Advanced state management",
                needs_vars_file := false, needs_backend_config := false }),
    ("workspace", { name := "workspace", description := "Workspace management",
                    needs_vars_file := false, needs_backend_config := false }),
    ("import", { name := "import", description := "Import existing infrastructure into Terraform",
                 needs_vars_file := true }),
    ("graph", { name := "graph", description := "Create a visual graph of Terraform resources",
                needs_vars_file := false }),
    ("providers", { name := "providers", description := "Show information about providers",
                    needs_vars_file := false }),
    ("version", { name := "version", description := "Show Terraform version",
                  needs_vars_file := false, needs_backend_config := false }) ]

/-- Source `TerraformRunner.get_command`: `COMMANDS.get(name)`. -/
def getCommand (name : String) : Option TerraformCommand :=
  (COMMANDS.find? (fun p => p.1 == name)).map (fun p => p.2)

/-! ## Command builder (`TerraformRunner.build_command`)

The Python parameter `env` is typed `Environment` but, like every Python
parameter, may be `None` at runtime; attribute access on `None` raises
`AttributeError`.  The embedding makes `env` an `Option` and returns
`Except String` so that exact behaviour is visible.  The `and` in
`command.needs_backend_config and os.path.exists(env.backend_file)`
short-circuits, so `env` is only dereferenced when the flag is set, which the
nested `if` reproduces. -/

/-- Message of the `AttributeError` raised by dereferencing `None`. -/
def attrErrMsg : String := "AttributeError: \x27NoneType\x27 object has no attribute"

/-- The backend-config branch of `build_command` (lines 156-157). -/
def addBackendFlag (w : World) (env : Option Environment) (command : TerraformCommand)
    (cmd : List String) : Except String (List String) :=
  if command.needs_backend_config then
    match env with
    | none => .error attrErrMsg
    | some e =>
        .ok (if pathExists w e.backend_file then cmd ++ ["-backend-config=" ++ e.backend_file]
             else cmd)
  else .ok cmd

/-- The var-file branch of `build_command` (lines 160-161). -/
def addVarsFlag (w : World) (env : Option Environment) (command : TerraformCommand)
    (cmd : List String) : Except String (List String) :=
  if command.needs_vars_file then
    match env with
    | none => .error attrErrMsg
    | some e =>
        .ok (if pathExists w e.vars_file then cmd ++ ["-var-file=" ++ e.vars_file] else cmd)
  else .ok cmd

/-- The custom/unknown-command branch of `build_command` (lines 167-169). -/
def addVarsFlagUnknown (w : World) (env : Option Environment) (cmd : List String) :
    Except String (List String) :=
  match env with
  | none => .error attrErrMsg
  | some e =>
      .ok (if pathExists w e.vars_file then cmd ++ ["-var-file=" ++ e.vars_file] else cmd)

/-- Source `TerraformRunner.build_command(command_name, env, extra_args)`. -/
def buildCommand (w : World) (terraform_path command_name : String)
    (env : Option Environment) (extra_args : Option (List String)) :
    Except String (List String) :=
  let extra := extra_args.getD []
  let cmd := [terraform_path, command_name]
  let afterEnv : Except String (List String) :=
    match getCommand command_name with
    | some command =>
        match addBackendFlag w env command cmd with
        | .error e => .error e
        | .ok cmd₂ =>
            match addVarsFlag w env command cmd₂ with
            | .error e => .error e
            | .ok cmd₃ =>
                .ok (if command.default_args.isEmpty then cmd₃ else cmd₃ ++ command.default_args)
    | none => addVarsFlagUnknown w env cmd
  match afterEnv with
  | .error e => .error e
  | .ok cmd₄ => .ok (if extra.isEmpty then cmd₄ else cmd₄ ++ extra)

/-! ## Error enricher (`TerraformRunner.ERROR_PATTERNS`,
`TerraformRunner._enhance_error_output`)

Every regex in `ERROR_PATTERNS` is either a plain literal or of the shape
`literal (.*?) literal`.  `Pat` captures exactly these two shapes, and the
search functions reproduce `re.search` semantics for them: scan positions left
to right, and at the first position where the pattern can match, take the
shortest (lazy) capture; `.` does not match a newline. -/

/-- Shape of a source error-pattern regex. -/
inductive Pat where
  | lit (p : String)
  | lgl (pre post : String)
deriving DecidableEq

/-- Lazy `(.*?)` match: the shortest run of non-newline characters followed by
`post`; `none` when no such run starts here. -/
def matchLazyGroup (post : List Char) : List Char → Option (List Char)
  | [] => if isPrefixL post [] then some [] else none
  | c :: cs =>
      if isPrefixL post (c :: cs) then some []
      else if c = '\n' then none
      else (matchLazyGroup post cs).map (fun g => c :: g)

/-- Search for `pre (.*?) post`: leftmost position where `pre` matches and a
lazy group completes; returns the captured group. -/
def searchLGL (pre post : List Char) : List Char → Option (List Char)
  | [] => if isPrefixL pre [] then matchLazyGroup post [] else none
  | c :: cs =>
      if isPrefixL pre (c :: cs) then
        match matchLazyGroup post ((c :: cs).drop pre.length) with
        | some g => some g
        | none => searchLGL pre post cs
      else searchLGL pre post cs

/-- Python `re.search(pattern, s)`: `none` when no match; on a match, the
inner option is `match.group(1)` (always present for `lgl` patterns, absent
for plain literals, which the source never queries). -/
def patSearch (pat : Pat) (s : String) : Option (Option String) :=
  match pat with
  | .lit p => if searchLit p.data s.data then some none else none
  | .lgl pre post => (searchLGL pre.data post.data s.data).map (fun g => some ⟨g⟩)

/-- The `ERROR_PATTERNS` table in source (insertion) order. -/
def ERROR_PATTERNS : List (String × Pat) :=
  [ ("no_s3_bucket", .lgl "S3 bucket \"" "\" does not exist"),
    ("no_workspace", .lgl "workspace \"" "\" does not exist"),
    ("no_terraform_files", .lit "No Terraform configuration files"),
    ("locked_state", .lgl "Error: " " is locked"),
    ("invalid_json", .lit "Error: Invalid JSON"),
    ("invalid_module_path", .lit "Error: Module not found") ]

/-- Remediation text appended for `no_s3_bucket` (source lines 230-232). -/
def s3Tip (bucket_name : String) : String :=
  "\n\nToffee Tip: The S3 bucket \x27" ++ bucket_name ++
    "\x27 doesn\x27t exist. You may need to:\n" ++
  "1. Create the bucket: aws s3 mb s3://" ++ bucket_name ++ "\n" ++
  "2. Enable versioning: aws s3api put-bucket-versioning --bucket " ++ bucket_name ++
    " --versioning-configuration Status=Enabled\n"

/-- Remediation text appended for `no_workspace` (source lines 236-237). -/
def workspaceTip (workspace : String) (env : Environment) : String :=
  "\n\nToffee Tip: The workspace \x27" ++ workspace ++
    "\x27 doesn\x27t exist. You may need to create it:\n" ++
  "toffee run " ++ env.name ++ " workspace new " ++ workspace ++ "\n"

/-- Remediation text appended for `no_terraform_files` (source line 240). -/
def tfFilesTip : String :=
  "\n\nToffee Tip: No Terraform configuration files found. Make sure you\x27re in the right directory."

/-- Remediation text appended for `locked_state` (source lines 244-247); the
captured state file name is bound but unused by the source. -/
def lockedTip (env : Environment) : String :=
  "\n\nToffee Tip: The state file is locked. This usually happens when:\n" ++
  "1. Another Terraform operation is in progress\n" ++
  "2. A previous operation ended abnormally\n" ++
  "\nYou can force-unlock with: toffee run " ++ env.name ++ " force-unlock [LOCK_ID]\n"

/-- Remediation text appended for `invalid_json` (source line 250). -/
def jsonTip : String :=
  "\n\nToffee Tip: There\x27s an issue with your JSON formatting. Check your variable files or module inputs."

/-- Remediation text appended for `invalid_module_path` (source line 253). -/
def moduleTip : String :=
  "\n\nToffee Tip: Module not found. Make sure module paths are correct and run \x27toffee init\x27 if you\x27ve added new modules."

/-- The `if error_name == ... and match.group(1)` chain of
`_enhance_error_output`.  An empty captured group is falsy in Python, so the
three capturing branches append nothing when the capture is `""`. -/
def applyTip (stderr : String) (error_name : String) (grp : Option String)
    (env : Environment) : String :=
  if error_name = "no_s3_bucket" then
    match grp with
    | some bucket_name => if bucket_name ≠ "" then stderr ++ s3Tip bucket_name else stderr
    | none => stderr
  else if error_name = "no_workspace" then
    match grp with
    | some workspace => if workspace ≠ "" then stderr ++ workspaceTip workspace env else stderr
    | none => stderr
  else if error_name = "no_terraform_files" then stderr ++ tfFilesTip
  else if error_name = "locked_state" then
    match grp with
    | some state_file => if state_file ≠ "" then stderr ++ lockedTip env else stderr
    | none => stderr
  else if error_name = "invalid_json" then stderr ++ jsonTip
  else if error_name = "invalid_module_path" then stderr ++ moduleTip
  else stderr

/-- The `for error_name, pattern in ERROR_PATTERNS.items()` loop: stop (Python
`break`) at the first matching signature. -/
def enhanceLoop (env : Environment) : List (String × Pat) → String → String
  | [], stderr => stderr
  | (error_name, pat) :: rest, stderr =>
      match patSearch pat stderr with
      | none => enhanceLoop env rest stderr
      | some grp => applyTip stderr error_name grp env

/-- Source `TerraformRunner._enhance_error_output(stderr, env)`. -/
def enhanceErrorOutput (stderr : String) (env : Environment) : String :=
  enhanceLoop env ERROR_PATTERNS stderr

/-! ## Process runner (`TerraformRunner.run_command`) -/

/-- Outcome of `subprocess.run(cmd, capture_output=True, text=True,
check=False)`: the child completed with an exit status and captured streams,
or spawning raised (`FileNotFoundError`, `PermissionError`, ...), carrying
`str(e)`. -/
inductive SpawnResult where
  | completed (returncode : Int) (stdout stderr : String)
  | raised (message : String)
deriving DecidableEq

/-- Source `TerraformRunner.run_command` after the argument vector has been
built: the `try` block around `subprocess.run`, the non-zero-exit enrichment,
and the `except` branch returning `(1, "", str(e))`. -/
def runCommand (spawn : SpawnResult) (env : Environment) : Int × String × String :=
  match spawn with
  | .completed returncode stdout stderr =>
      if returncode ≠ 0 then (returncode, stdout, enhanceErrorOutput stderr env)
      else (returncode, stdout, stderr)
  | .raised message => (1, "", message)

/-! ## Environment registry (`toffee/core/environment.py`,
`EnvironmentManager`)

`self._environments` is a Python dict keyed by name; it is embedded as an
insertion-ordered association list, with `d[k] = v` as `dictInsert` (replace
in place when the key is present, append otherwise). -/

/-- The manager's state: the configured vars directory and the registry map. -/
structure EnvironmentManager where
  vars_dir : String
  environments : List (String × Environment)
deriving DecidableEq

/-- Python `d[k] = v` on an insertion-ordered dict. -/
def dictInsert (l : List (String × Environment)) (k : String) (v : Environment) :
    List (String × Environment) :=
  if l.any (fun p => p.1 == k) then l.map (fun p => if p.1 == k then (k, v) else p)
  else l ++ [(k, v)]

/-- Source `EnvironmentManager.get_environment`: `self._environments.get(name)`. -/
def getEnvironment (m : EnvironmentManager) (name : String) : Option Environment :=
  (m.environments.find? (fun p => p.1 == name)).map (fun p => p.2)

/-- Source `EnvironmentManager.get_environment_names`:
`sorted(list(self._environments.keys()))`. -/
def getEnvironmentNames (m : EnvironmentManager) : List String :=
  sortStrings (m.environments.map (fun p => p.1))

/-- The `Environment` built from the two conventional paths for `name` under
`vars_dir`, as constructed by `validate_environment`, `_discover_environments`
and `create_environment_template`. -/
def conventionalEnvironment (vars_dir name : String) : Environment :=
  { name := name,
    vars_file := pathJoin vars_dir (name ++ ".tfvars"),
    backend_file := pathJoin vars_dir (name ++ ".tfbackend") }

/-- Source `EnvironmentManager.validate_environment`.  Returns the
`(is_valid, error_message)` pair together with the possibly mutated manager
(the unknown-name branch registers an on-the-fly `Environment` when one of the
two conventional files exists). -/
def validateEnvironment (w : World) (m : EnvironmentManager) (name : String) :
    (Bool × Option String) × EnvironmentManager :=
  match getEnvironment m name with
  | some _ => ((true, none), m)
  | none =>
      let vars_file := pathJoin m.vars_dir (name ++ ".tfvars")
      let backend_file := pathJoin m.vars_dir (name ++ ".tfbackend")
      if isFile w vars_file || isFile w backend_file then
        let onTheFly : Environment :=
          { name := name, vars_file := vars_file, backend_file := backend_file }
        ((true, none),
         { m with environments := dictInsert m.environments name onTheFly })
      else
        let available_envs := getEnvironmentNames m
        if available_envs.isEmpty then
          ((false, some ("Environment \x27" ++ name ++
             "\x27 not found. No environments available in " ++ m.vars_dir ++ "/")), m)
        else
          ((false, some ("Environment \x27" ++ name ++
             "\x27 not found. Available environments: " ++ commaJoin available_envs)), m)

/-! ### Levenshtein distance (`EnvironmentManager._levenshtein_distance`)

The source computes the classic distance with a rolling-row dynamic program.
`levInnerLoop` is the `for j, c2 in enumerate(s2)` loop (reading
`previous_row[j]`, `previous_row[j+1]` and the last appended element of
`current_row`), `levOuterLoop` the `for i, c1 in enumerate(s1)` loop, and
`previous_row[-1]` becomes `getLastD _ 0`.  `(c1 != c2)` is Python bool
arithmetic, embedded as `if c1 = c2 then 0 else 1`. -/

/-- Inner loop of the DP: walk the remaining `s2` characters alongside the
previous row, carrying `current_row`'s last element. -/
def levInnerLoop (c1 : Char) : List Char → List Nat → Nat → List Nat
  | c2 :: s2rest, pj :: pj1 :: prest, last =>
      let insertions := pj1 + 1
      let deletions := last + 1
      let substitutions := pj + (if c1 = c2 then 0 else 1)
      let v := min insertions (min deletions substitutions)
      v :: levInnerLoop c1 s2rest (pj1 :: prest) v
  | _, _, _ => []

/-- Outer loop of the DP over the characters of `s1`; `i` is the `enumerate`
index, so each row starts with `i + 1`. -/
def levOuterLoop : List Char → List Char → List Nat → Nat → List Nat
  | [], _, previous_row, _ => previous_row
  | c1 :: s1rest, s2, previous_row, i =>
      let current_row := (i + 1) :: levInnerLoop c1 s2 previous_row (i + 1)
      levOuterLoop s1rest s2 current_row (i + 1)

/-- Body of `_levenshtein_distance` after the swap made `s1` the longer
string: the `len(s2) == 0` early return, then the DP sweep from
`previous_row = range(len(s2) + 1)`. -/
def levBody (s1 s2 : List Char) : Nat :=
  if s2.length = 0 then s1.length
  else (levOuterLoop s1 s2 (List.range (s2.length + 1)) 0).getLastD 0

/-- Source `EnvironmentManager._levenshtein_distance(s1, s2)`.  The source's
`if len(s1) < len(s2): return self._levenshtein_distance(s2, s1)` recurses
exactly once (after the swap the guard is false), so it is inlined as a
conditional swap in front of the body. -/
def levenshtein_distance (s1 s2 : String) : Nat :=
  if s1.length < s2.length then levBody s2.data s1.data else levBody s1.data s2.data

/-- Reference definition, following the spec's words: the classic
single-character-edit Levenshtein distance, by the standard recursion —
deleting the first character of `s1`, inserting the first character of `s2`,
or substituting one for the other (cost 0 on equal characters), with no
transposition. -/
def levRef : List Char → List Char → Nat
  | [], t => t.length
  | _ :: s, [] => s.length + 1
  | c1 :: s, c2 :: t =>
      min (levRef s (c2 :: t) + 1)
        (min (levRef (c1 :: s) t + 1) (levRef s t + (if c1 = c2 then 0 else 1)))
termination_by s t => s.length + t.length
decreasing_by all_goals simp_arith

/-- Reference value of a DP row: with `P` the reversed processed prefix of
`s1` and `Q` the reversed processed prefix of `s2`, the row entries along the
remaining columns `rem` are `levRef P Q, levRef P (c::Q), ...`. -/
def refRow (P : List Char) : List Char → List Char → List Nat
  | Q, [] => [levRef P Q]
  | Q, c2 :: rest => levRef P Q :: refRow P (c2 :: Q) rest

/-! ### Suggestions (`EnvironmentManager.suggest_environment`) -/

/-- The best-match scan of `suggest_environment`: `best_match = None`,
`best_score = float("inf")`, update on strict improvement.  The infinite
initial score is embedded as `none`, which every distance beats. -/
def bestLoop (name : String) :
    List String → Option String → Option Nat → Option String × Option Nat
  | [], best_match, best_score => (best_match, best_score)
  | env :: rest, best_match, best_score =>
      let distance := levenshtein_distance name env
      let improves := match best_score with
        | none => true
        | some s => distance < s
      if improves then bestLoop name rest (some env) (some distance)
      else bestLoop name rest best_match best_score

/-- Source `EnvironmentManager.suggest_environment(name)`.  The final guard
`best_score <= len(name) / 2` is Python float division; for a natural
`best_score` it is equivalent to `2 * best_score ≤ len name`, which is how it
is embedded. -/
def suggestEnvironment (m : EnvironmentManager) (name : String) : Option String :=
  if m.environments.isEmpty then none
  else
    let available := getEnvironmentNames m
    match available.find? (fun env => strStartsWith env name) with
    | some env => some env
    | none =>
        match available.find? (fun env => strContains env name) with
        | some env => some env
        | none =>
            let bs := bestLoop name available none none
            let pass := match bs.2 with
              | none => false
              | some best_score => 2 * best_score ≤ name.length
            if pass then bs.1
            else
              match available with
              | [] => none
              | a :: _ => some a

/-- A two-environment registry used as the spec's worked example for
suggestions. -/
def devProdManager : EnvironmentManager :=
  { vars_dir := "vars",
    environments :=
      [("dev", { name := "dev", vars_file := "vars/dev.tfvars",
                 backend_file := "vars/dev.tfbackend" }),
       ("prod", { name := "prod", vars_file := "vars/prod.tfvars",
                  backend_file := "vars/prod.tfbackend" })] }

/-! ### Discovery (`EnvironmentManager._discover_environments`)

`glob.glob(os.path.join(vars_dir, "*.tfvars"))` is embedded as a filter over
the world's file paths: a path matches when it extends `vars_dir ++ "/"` with
a basename that has the right extension, contains no separator, and is not a
hidden (dot-leading) file, which `*` does not match.  `pathlib.Path(p).stem`
is the basename with its final extension removed (a lone leading dot is not an
extension separator). -/

/-- Strip a literal prefix, or fail. -/
def dropPrefixL : List Char → List Char → Option (List Char)
  | [], s => some s
  | _ :: _, [] => none
  | c :: p, x :: s => if c = x then dropPrefixL p s else none

/-- Whether path `p` is matched by `glob.glob(dir ++ "/*" ++ ext)`. -/
def globMatch (dir ext p : String) : Bool :=
  match dropPrefixL (dir ++ "/").data p.data with
  | none => false
  | some rest =>
      isPrefixL ext.data.reverse rest.reverse &&
      !(rest.any (fun c => c = '/')) && !(isPrefixL ".".data rest)

/-- Characters after the last `/`. -/
def baseNameL (l : List Char) : List Char :=
  (l.reverse.takeWhile (fun c => c ≠ '/')).reverse

/-- Split on `.`, auxiliary to `pathStem`. -/
def splitOnDot : List Char → List (List Char)
  | [] => [[]]
  | c :: rest =>
      let r := splitOnDot rest
      if c = '.' then [] :: r
      else
        match r with
        | [] => [[c]]
        | seg :: segs => (c :: seg) :: segs

/-- Rejoin dot-separated segments, auxiliary to `pathStem`. -/
def joinDots : List (List Char) → List Char
  | [] => []
  | [seg] => seg
  | seg :: rest => seg ++ '.' :: joinDots rest

/-- Python `pathlib.Path(p).stem`. -/
def pathStem (p : String) : String :=
  let b := baseNameL p.data
  let parts := splitOnDot b
  match parts with
  | [] => ⟨b⟩
  | [_] => ⟨b⟩
  | first :: rest =>
      if first = [] && rest.length = 1 then ⟨b⟩ else ⟨joinDots (parts.dropLast)⟩

/-- Body of the `for vars_file in tfvars_files` loop of
`_discover_environments` (source lines 67-77): register the stem,
overwriting any previous entry. -/
def discoverTfvarsStep (acc : EnvironmentManager) (vars_file : String) : EnvironmentManager :=
  let env_name := pathStem vars_file
  let backend_file := pathJoin acc.vars_dir (env_name ++ ".tfbackend")
  let e : Environment :=
    { name := env_name, vars_file := vars_file, backend_file := backend_file }
  { acc with environments := dictInsert acc.environments env_name e }

/-- Body of the `for backend_file in backend_files` loop of
`_discover_environments` (source lines 82-89): register the stem only when it
is not already present. -/
def discoverBackendStep (acc : EnvironmentManager) (backend_file : String) : EnvironmentManager :=
  let env_name := pathStem backend_file
  if acc.environments.any (fun p => p.1 == env_name) then acc
  else
    let vars_file := pathJoin acc.vars_dir (env_name ++ ".tfvars")
    { acc with environments := acc.environments ++
        [(env_name, { name := env_name, vars_file := vars_file,
                      backend_file := backend_file })] }

/-- Source `EnvironmentManager._discover_environments`: register every
`*.tfvars` stem (overwriting), then every `*.tfbackend` stem not already
present. -/
def discoverEnvironments (w : World) (m : EnvironmentManager) : EnvironmentManager :=
  if !(isDir w m.vars_dir) then m
  else
    let tfvars_files := (w.files.map (fun f => f.1)).filter (globMatch m.vars_dir ".tfvars")
    let m₁ := tfvars_files.foldl discoverTfvarsStep m
    let backend_files := (w.files.map (fun f => f.1)).filter (globMatch m.vars_dir ".tfbackend")
    backend_files.foldl discoverBackendStep m₁

/-! ### Template creation (`EnvironmentManager.create_environment_template`) -/

/-- Content of the vars-file stub (source line 209). -/
def varsStubContent (name : String) : String :=
  "# Terraform variables for " ++ name ++ " environment\n\n"

/-- Content of the backend-file stub (source lines 215-219). -/
def backendStubContent (name : String) : String :=
  "# Backend configuration for " ++ name ++ " environment\n\n" ++
  "bucket = \"your-terraform-state-bucket\"\n" ++
  "key = \"terraform/" ++ name ++ "/terraform.tfstate\"\n" ++
  "region = \"us-east-1\"\n" ++
  "encrypt = true\n"

/-- The `try` block of `create_environment_template`: ensure the directory,
write each stub only when the path does not already exist, and produce the
`Environment` that the final dict assignment registers.  An error is a raised
I/O exception, carrying the world as mutated so far. -/
def createEnvironmentImpl (w : World) (vars_dir name : String) :
    Except (String × World) (World × Environment) :=
  match makedirsOp w vars_dir with
  | .error e => .error e
  | .ok w₁ =>
      let vars_file := pathJoin vars_dir (name ++ ".tfvars")
      match (if pathExists w₁ vars_file then .ok w₁
             else writeFileOp w₁ vars_file (varsStubContent name)) with
      | .error e => .error e
      | .ok w₂ =>
          let backend_file := pathJoin vars_dir (name ++ ".tfbackend")
          match (if pathExists w₂ backend_file then .ok w₂
                 else writeFileOp w₂ backend_file (backendStubContent name)) with
          | .error e => .error e
          | .ok w₃ =>
              .ok (w₃, { name := name, vars_file := vars_file, backend_file := backend_file })

/-- Source `EnvironmentManager.create_environment_template(name)`: the `try`
body registers the environment and returns `True`; the catch-all `except`
returns `False` with the registry untouched.  The result carries the final
world so the filesystem effects are observable. -/
def createEnvironmentTemplate (w : World) (m : EnvironmentManager) (name : String) :
    Bool × World × EnvironmentManager :=
  match createEnvironmentImpl w m.vars_dir name with
  | .ok (w₃, envObj) =>
      (true, w₃, { m with environments := dictInsert m.environments name envObj })
  | .error (_, wFail) => (false, wFail, m)

/-! ## Helper lemmas -/

/-- Characterisation of `build_command` for a known command and a supplied
environment: the fixed head, the two conditional flags, the default
arguments, then the extra arguments. -/
theorem buildCommand_known (w : World) (tp cn : String) (env : Environment)
    (extra : Option (List String)) (c : TerraformCommand) (h : getCommand cn = some c) :
    buildCommand w tp cn (some env) extra =
      .ok ([tp, cn]
        ++ (if c.needs_backend_config && pathExists w env.backend_file
            then ["-backend-config=" ++ env.backend_file] else [])
        ++ (if c.needs_vars_file && pathExists w env.vars_file
            then ["-var-file=" ++ env.vars_file] else [])
        ++ c.default_args ++ extra.getD []) := by
  unfold buildCommand addBackendFlag addVarsFlag
  rw [h]
  cases hb : c.needs_backend_config <;> cases hv : c.needs_vars_file <;>
    cases hpb : pathExists w env.backend_file <;> cases hpv : pathExists w env.vars_file <;>
      cases hd : c.default_args <;> cases he : extra.getD [] <;>
        simp [hb, hv, hpb, hpv, hd, he, List.append_assoc]

/-- Characterisation of `build_command` for a known command when no
environment is supplied and the command touches neither file: the
short-circuiting `and`s never dereference `env`. -/
theorem buildCommand_noEnv_noFiles (w : World) (tp cn : String)
    (extra : Option (List String)) (c : TerraformCommand) (h : getCommand cn = some c)
    (hb : c.needs_backend_config = false) (hv : c.needs_vars_file = false) :
    buildCommand w tp cn none extra = .ok ([tp, cn] ++ c.default_args ++ extra.getD []) := by
  unfold buildCommand addBackendFlag addVarsFlag
  rw [h]
  cases hd : c.default_args <;> cases he : extra.getD [] <;>
    simp [hb, hv, hd, he, List.append_assoc]

/-! ## Claims about the command builder -/

/-- C1.  For every known command name, environment, and extra-argument list,
`build_command` returns exactly `[engine_path, command_name]`, then
`-backend-config=<backend_file>` iff the spec's `needs_backend_config` is true
and the backend file exists on disk, then `-var-file=<vars_file>` iff
`needs_vars_file` is true and the vars file exists, then the spec's
`default_args` in order, then the extra arguments verbatim; in particular
`build_command("apply", env, ["-auto-approve"])` ends with `-auto-approve`
after all derived flags. -/
theorem C1_build_command_known (w : World) (tp cn : String) (env : Environment)
    (extra : List String) (c : TerraformCommand) (h : getCommand cn = some c) :
    buildCommand w tp cn (some env) (some extra) =
      .ok ([tp, cn]
        ++ (if c.needs_backend_config && pathExists w env.backend_file
            then ["-backend-config=" ++ env.backend_file] else [])
        ++ (if c.needs_vars_file && pathExists w env.vars_file
            then ["-var-file=" ++ env.vars_file] else [])
        ++ c.default_args ++ extra)
    ∧ buildCommand w tp "apply" (some env) (some ["-auto-approve"]) =
      .ok ([tp, "apply"]
        ++ (if pathExists w env.vars_file then ["-var-file=" ++ env.vars_file] else [])
        ++ ["-auto-approve"]) := by
  constructor
  · simpa using buildCommand_known w tp cn env (some extra) c h
  · have happly : getCommand "apply" =
        some { name := "apply", description := "Apply changes to infrastructure",
               needs_vars_file := true } := rfl
    have h2 := buildCommand_known w tp "apply" env (some ["-auto-approve"]) _ happly
    simpa using h2

/-- C1 witness: a concrete instance of the characterisation. -/
theorem C1_witness :
    buildCommand ⟨[("vars/dev.tfvars", "")], [], []⟩ "terraform" "init"
      (some ⟨"dev", "vars/dev.tfvars", "vars/dev.tfbackend"⟩) (some ["-upgrade"]) =
      .ok ["terraform", "init", "-upgrade"] := by
  have h := (C1_build_command_known ⟨[("vars/dev.tfvars", "")], [], []⟩ "terraform" "init"
      ⟨"dev", "vars/dev.tfvars", "vars/dev.tfbackend"⟩ ["-upgrade"]
      { name := "init", description := "Initialize a Terraform working directory",
        needs_vars_file := false, needs_backend_config := true } rfl).1
  simpa using h

/-- C6 counterexample: with no environment supplied, `build_command` for the
known command `plan` (which needs a vars file) raises `AttributeError` by
dereferencing `None` instead of returning `[engine_path, "plan"]`. -/
theorem C6_counterexample :
    buildCommand ⟨[], [], []⟩ "terraform" "plan" none (some []) ≠
      Except.ok ["terraform", "plan"] := by
  intro hcontra
  rw [show buildCommand ⟨[], [], []⟩ "terraform" "plan" none (some []) =
      Except.error attrErrMsg from rfl] at hcontra
  exact Except.noConfusion hcontra

/-- C6 (amended).  When no environment is supplied, `build_command` returns
exactly `[engine_path, command_name]` followed by the default and extra
arguments for the known commands that need neither a vars file nor a backend
config; commands that require either file (or unknown commands) instead raise
`AttributeError`. -/
theorem C6_no_environment (w : World) (tp cn : String) (extra : List String)
    (c : TerraformCommand) (h : getCommand cn = some c)
    (hb : c.needs_backend_config = false) (hv : c.needs_vars_file = false) :
    buildCommand w tp cn none (some extra) = .ok ([tp, cn] ++ c.default_args ++ extra) := by
  simpa using buildCommand_noEnv_noFiles w tp cn (some extra) c h hb hv

/-- C6 witness: the environment-less `fmt` invocation. -/
theorem C6_witness :
    buildCommand ⟨[], [], []⟩ "terraform" "fmt" none (some ["-check"]) =
      .ok ["terraform", "fmt", "-check"] := by
  have h := C6_no_environment ⟨[], [], []⟩ "terraform" "fmt" ["-check"]
      { name := "fmt", description := "Format the configuration files",
        needs_vars_file := false, needs_backend_config := false } rfl rfl rfl
  simpa using h

/-! ## Enricher lemmas -/

theorem enhanceLoop_no_match (env : Environment) (s : String) :
    ∀ l : List (String × Pat), (∀ q ∈ l, patSearch q.2 s = none) → enhanceLoop env l s = s := by
  intro l
  induction l with
  | nil => intro _; rfl
  | cons q rest ih =>
      intro h
      obtain ⟨a, b⟩ := q
      have ha : patSearch b s = none := h (a, b) (by simp)
      simp only [enhanceLoop, ha]
      exact ih (fun p hp => h p (by simp [hp]))

theorem enhanceLoop_first_match (env : Environment) (s : String) :
    ∀ (l₁ : List (String × Pat)) (nm : String) (pt : Pat) (grp : Option String)
      (l₂ : List (String × Pat)),
      (∀ q ∈ l₁, patSearch q.2 s = none) → patSearch pt s = some grp →
      enhanceLoop env (l₁ ++ (nm, pt) :: l₂) s = applyTip s nm grp env := by
  intro l₁
  induction l₁ with
  | nil =>
      intro nm pt grp l₂ _ hm
      simp only [List.nil_append, enhanceLoop, hm]
  | cons q rest ih =>
      intro nm pt grp l₂ hnone hm
      obtain ⟨a, b⟩ := q
      have ha : patSearch b s = none := hnone (a, b) (by simp)
      simp only [List.cons_append, enhanceLoop, ha]
      exact ih nm pt grp l₂ (fun p hp => hnone p (by simp [hp])) hm

theorem applyTip_append (s nm : String) (grp : Option String) (env : Environment) :
    ∃ t, applyTip s nm grp env = s ++ t := by
  unfold applyTip
  repeat' split
  all_goals first
    | exact ⟨_, rfl⟩
    | exact ⟨"", by simp⟩

theorem enhanceLoop_append (env : Environment) (s : String) :
    ∀ l : List (String × Pat), ∃ t, enhanceLoop env l s = s ++ t := by
  intro l
  induction l with
  | nil => exact ⟨"", by simp [enhanceLoop]⟩
  | cons q rest ih =>
      obtain ⟨a, b⟩ := q
      cases hps : patSearch b s with
      | none => simpa only [enhanceLoop, hps] using ih
      | some g => simpa only [enhanceLoop, hps] using applyTip_append s a (some g).get! env

/-- C5 counterexample.  The first signature matches the stderr text
`S3 bucket "" does not exist` with an empty capture group, which is falsy in
Python, so the enricher appends no remediation block at all: the claim that a
match always appends a block referencing the capture fails here. -/
theorem C5_counterexample :
    patSearch (Pat.lgl "S3 bucket \"" "\" does not exist") "S3 bucket \"\" does not exist" =
      some (some "")
    ∧ enhanceErrorOutput "S3 bucket \"\" does not exist"
        ⟨"dev", "vars/dev.tfvars", "vars/dev.tfbackend"⟩ =
      "S3 bucket \"\" does not exist" := by
  exact ⟨by decide, by decide⟩

/-- C5 (amended).  The enricher checks the signature table in order and acts
only on the first matching signature; the result always extends the original
text (the original is never altered or parsed away); a capturing signature
whose capture is non-empty appends its remediation block referencing the
capture (demonstrated for `S3 bucket "my-bucket" does not exist`), while an
empty capture appends nothing; if no signature matches, the text is returned
unchanged; enrichment never alters the child's exit code. -/
theorem C5_enricher_first_match (env : Environment) (s : String) :
    ((∀ q ∈ ERROR_PATTERNS, patSearch q.2 s = none) → enhanceErrorOutput s env = s)
    ∧ (∀ (l₁ : List (String × Pat)) (nm : String) (pt : Pat) (grp : Option String)
         (l₂ : List (String × Pat)),
        ERROR_PATTERNS = l₁ ++ (nm, pt) :: l₂ →
        (∀ q ∈ l₁, patSearch q.2 s = none) →
        patSearch pt s = some grp →
        enhanceErrorOutput s env = applyTip s nm grp env)
    ∧ (∃ t, enhanceErrorOutput s env = s ++ t)
    ∧ (∀ (rc : Int) (stdout stderr : String),
        (runCommand (.completed rc stdout stderr) env).1 = rc)
    ∧ enhanceErrorOutput "S3 bucket \"my-bucket\" does not exist" env =
        "S3 bucket \"my-bucket\" does not exist" ++ s3Tip "my-bucket"
    ∧ strContains (enhanceErrorOutput "S3 bucket \"my-bucket\" does not exist" env)
        "my-bucket" = true := by
  have he : enhanceErrorOutput "S3 bucket \"my-bucket\" does not exist" env =
      "S3 bucket \"my-bucket\" does not exist" ++ s3Tip "my-bucket" := by
    have hp : patSearch (Pat.lgl "S3 bucket \"" "\" does not exist")
        "S3 bucket \"my-bucket\" does not exist" = some (some "my-bucket") := by decide
    unfold enhanceErrorOutput ERROR_PATTERNS
    simp only [enhanceLoop, hp]
    unfold applyTip
    norm_num
    intro h
    exact absurd h (by decide)
  refine ⟨?_, ?_, ?_, ?_, he, ?_⟩
  · intro h; exact enhanceLoop_no_match env s ERROR_PATTERNS h
  · intro l₁ nm pt grp l₂ heq hnone hm
    unfold enhanceErrorOutput
    rw [heq]
    exact enhanceLoop_first_match env s l₁ nm pt grp l₂ hnone hm
  · exact enhanceLoop_append env s ERROR_PATTERNS
  · intro rc stdout stderr
    show (if rc ≠ 0 then (rc, stdout, enhanceErrorOutput stderr env)
          else (rc, stdout, stderr)).1 = rc
    split <;> rfl
  · rw [he]; decide

/-- C5 witness: text matching no signature is returned unchanged. -/
theorem C5_witness :
    enhanceErrorOutput "all good" ⟨"dev", "vars/dev.tfvars", "vars/dev.tfbackend"⟩ =
      "all good" :=
  (C5_enricher_first_match ⟨"dev", "vars/dev.tfvars", "vars/dev.tfbackend"⟩ "all good").1
    (by decide)

/-! ## Substring-search lemmas -/

theorem strData_append (a b : String) : (a ++ b).data = a.data ++ b.data := rfl

theorem isPrefixL_self_append (p r : List Char) : isPrefixL p (p ++ r) = true := by
  induction p with
  | nil => rfl
  | cons c cs ih => simp [isPrefixL, ih]

theorem searchLit_of_infix (p l : List Char) (h : p <:+: l) : searchLit p l = true := by
  obtain ⟨s, t, rfl⟩ := h
  induction s with
  | nil =>
      cases p with
      | nil => cases t <;> simp [searchLit, isPrefixL]
      | cons c cs =>
          have hpre := isPrefixL_self_append (c :: cs) t
          simp only [List.cons_append, List.nil_append] at hpre ⊢
          simp [searchLit, hpre]
  | cons x xs ih =>
      simp only [List.cons_append, searchLit, Bool.or_eq_true]
      exact Or.inr (by simpa [List.append_assoc] using ih)

theorem strContains_of_infix (hay needle : String) (h : needle.data <:+: hay.data) :
    strContains hay needle = true := searchLit_of_infix _ _ h

theorem infix_append_left (l a b : List Char) (h : l <:+: b) : l <:+: a ++ b := by
  obtain ⟨s, t, rfl⟩ := h
  exact ⟨a ++ s, t, by simp⟩

theorem infix_append_right (l a b : List Char) (h : l <:+: a) : l <:+: a ++ b := by
  obtain ⟨s, t, rfl⟩ := h
  exact ⟨s, t ++ b, by simp⟩

theorem mem_infix_commaJoin (x : String) :
    ∀ l : List String, x ∈ l → x.data <:+: (commaJoin l).data := by
  intro l
  induction l with
  | nil => intro h; cases h
  | cons y ys ih =>
      intro hm
      cases ys with
      | nil =>
          have hx : x = y := by simpa using hm
          subst hx
          exact List.infix_refl _
      | cons z zs =>
          rcases List.mem_cons.mp hm with rfl | hmem
          · show x.data <:+: ((x ++ ", ") ++ commaJoin (z :: zs)).data
            rw [strData_append, strData_append]
            exact infix_append_right _ _ _ (infix_append_right _ _ _ (List.infix_refl _))
          · show x.data <:+: ((y ++ ", ") ++ commaJoin (z :: zs)).data
            rw [strData_append]
            exact infix_append_left _ _ _ (ih hmem)

/-! ## Registry-map lemmas -/

theorem find?_append_left {α : Type} (f : α → Bool) :
    ∀ (l₁ l₂ : List α) (x : α), l₁.find? f = some x → (l₁ ++ l₂).find? f = some x := by
  intro l₁
  induction l₁ with
  | nil => intro l₂ x h; cases h
  | cons a l ih =>
      intro l₂ x h
      by_cases ha : f a
      · simp [List.find?, ha] at h ⊢; exact h
      · simp only [List.find?, ha] at h
        simp only [List.cons_append, List.find?, ha]
        exact ih l₂ x h

theorem find?_append_of_none {α : Type} (f : α → Bool) :
    ∀ (l₁ l₂ : List α), l₁.find? f = none → (l₁ ++ l₂).find? f = l₂.find? f := by
  intro l₁
  induction l₁ with
  | nil => intro l₂ _; rfl
  | cons a l ih =>
      intro l₂ h
      by_cases ha : f a
      · simp [List.find?, ha] at h
      · simp only [List.find?, ha] at h
        simp only [List.cons_append, List.find?, ha]
        exact ih l₂ h

theorem find?_map_replace (k : String) (v : Environment) :
    ∀ l : List (String × Environment), l.any (fun p => p.1 == k) = true →
      (l.map (fun p => if p.1 == k then (k, v) else p)).find? (fun p => p.1 == k) =
        some (k, v) := by
  intro l
  induction l with
  | nil => intro h; cases h
  | cons p ps ih =>
      intro h
      cases hp : p.1 == k with
      | true => simp [List.find?, hp]
      | false =>
          have hps : ps.any (fun q => q.1 == k) = true := by simpa [hp] using h
          simp only [List.map_cons, hp, Bool.false_eq_true, if_false]
          rw [List.find?_cons_of_neg _ (by simp [hp])]
          exact ih hps

theorem find?_map_replace_other (k k' : String) (v : Environment) (hk : (k == k') = false) :
    ∀ l : List (String × Environment),
      (l.map (fun p => if p.1 == k then (k, v) else p)).find? (fun p => p.1 == k') =
        l.find? (fun p => p.1 == k') := by
  intro l
  induction l with
  | nil => rfl
  | cons p ps ih =>
      cases hp : p.1 == k with
      | true =>
          have hp1 : p.1 = k := by simpa using hp
          have hpk : (p.1 == k') = false := by rw [hp1]; exact hk
          simp only [List.map_cons, hp, if_true]
          rw [List.find?_cons_of_neg _ (by simp [hk]), List.find?_cons_of_neg _ (by simp [hpk])]
          exact ih
      | false =>
          simp only [List.map_cons, hp, Bool.false_eq_true, if_false]
          cases hp' : p.1 == k' with
          | true =>
              rw [List.find?_cons_of_pos _ (by simp [hp']), List.find?_cons_of_pos _ (by simp [hp'])]
          | false =>
              rw [List.find?_cons_of_neg _ (by simp [hp']), List.find?_cons_of_neg _ (by simp [hp'])]
              exact ih

theorem any_eq_false_find?_none {α : Type} (f : α → Bool) (l : List α)
    (h : l.any f = false) : l.find? f = none := by
  rw [List.find?_eq_none]
  intro x hx
  exact List.any_eq_false.mp h x hx

theorem find?_dictInsert (l : List (String × Environment)) (k : String) (v : Environment) :
    (dictInsert l k v).find? (fun p => p.1 == k) = some (k, v) := by
  unfold dictInsert
  by_cases h : (l.any fun p => p.1 == k) = true
  · rw [if_pos h]
    exact find?_map_replace k v l h
  · rw [if_neg h]
    have hfalse : (l.any fun p => p.1 == k) = false := by
      cases hb : l.any fun p => p.1 == k with
      | true => exact absurd hb h
      | false => rfl
    have hn : l.find? (fun p => p.1 == k) = none := any_eq_false_find?_none _ l hfalse
    rw [find?_append_of_none _ l _ hn]
    simp [List.find?]

theorem find?_dictInsert_other (l : List (String × Environment)) (k k' : String)
    (v : Environment) (hk : k' ≠ k) :
    (dictInsert l k v).find? (fun p => p.1 == k') = l.find? (fun p => p.1 == k') := by
  unfold dictInsert
  have hkk : (k == k') = false := by
    cases hc : k == k' with
    | true =>
        have hkeq : k = k' := by simpa using hc
        exact absurd hkeq.symm hk
    | false => rfl
  by_cases h : (l.any fun p => p.1 == k) = true
  · rw [if_pos h]
    exact find?_map_replace_other k k' v hkk l
  · rw [if_neg h]
    cases hf : l.find? (fun p => p.1 == k') with
    | some x => exact find?_append_left _ l _ x hf
    | none =>
        rw [find?_append_of_none _ l _ hf]
        simp [List.find?, hkk]

theorem getEnvironment_insert_self (m : EnvironmentManager) (k : String) (v : Environment) :
    getEnvironment { m with environments := dictInsert m.environments k v } k = some v := by
  unfold getEnvironment
  simp [find?_dictInsert]

/-! ## Suggestion lemmas -/

theorem length_insertSorted (x : String) :
    ∀ l : List String, (insertSorted x l).length = l.length + 1 := by
  intro l
  induction l with
  | nil => rfl
  | cons y ys ih =>
      unfold insertSorted
      by_cases h : strLe x y = true
      · simp [h]
      · simp only [if_neg h, List.length_cons, ih]

theorem length_sortStrings : ∀ l : List String, (sortStrings l).length = l.length := by
  intro l
  induction l with
  | nil => rfl
  | cons x xs ih => simp [sortStrings, length_insertSorted, ih]

theorem bestLoop_invariant (q : String) :
    ∀ (l : List String) (b : String) (s : Nat), s = levenshtein_distance q b →
      ∃ b' s', bestLoop q l (some b) (some s) = (some b', some s')
        ∧ s' = levenshtein_distance q b'
        ∧ s' ≤ s
        ∧ (∀ x ∈ l, s' ≤ levenshtein_distance q x)
        ∧ (b' = b ∨ b' ∈ l) := by
  intro l
  induction l with
  | nil =>
      intro b s hs
      exact ⟨b, s, rfl, hs, le_refl s, by simp, Or.inl rfl⟩
  | cons env rest ih =>
      intro b s hs
      by_cases hlt : levenshtein_distance q env < s
      · obtain ⟨b', s', heq, hs', hle, hall, hmem⟩ :=
          ih env (levenshtein_distance q env) rfl
        have hred : bestLoop q (env :: rest) (some b) (some s) =
            bestLoop q rest (some env) (some (levenshtein_distance q env)) := by
          simp [bestLoop, hlt]
        refine ⟨b', s', by rw [hred, heq], hs', hle.trans hlt.le, ?_, ?_⟩
        · intro x hx
          rcases List.mem_cons.mp hx with rfl | hm
          · exact hle
          · exact hall x hm
        · rcases hmem with rfl | hm
          · exact Or.inr (List.mem_cons_self _ _)
          · exact Or.inr (List.mem_cons_of_mem _ hm)
      · obtain ⟨b', s', heq, hs', hle, hall, hmem⟩ := ih b s hs
        have hred : bestLoop q (env :: rest) (some b) (some s) =
            bestLoop q rest (some b) (some s) := by
          simp [bestLoop, hlt]
        refine ⟨b', s', by rw [hred, heq], hs', hle, ?_, ?_⟩
        · intro x hx
          rcases List.mem_cons.mp hx with rfl | hm
          · exact hle.trans (not_lt.mp hlt)
          · exact hall x hm
        · rcases hmem with rfl | hm
          · exact Or.inl rfl
          · exact Or.inr (List.mem_cons_of_mem _ hm)

/-- Reduction of `suggest_environment` to its Levenshtein tier: when neither
the prefix pass nor the substring pass hits, the scan settles on a best match
`b'`, and the result is `b'` when the score passes the threshold, else the
first name. -/
theorem suggest_lev_branch (m : EnvironmentManager) (q : String)
    (hfp : (getEnvironmentNames m).find? (fun env => strStartsWith env q) = none)
    (hfc : (getEnvironmentNames m).find? (fun env => strContains env q) = none)
    (hF : m.environments.isEmpty = false)
    (a : String) (rest : List String) (hnames : getEnvironmentNames m = a :: rest) :
    ∃ b' s', bestLoop q (a :: rest) none none = (some b', some s')
      ∧ s' = levenshtein_distance q b'
      ∧ (∀ x ∈ a :: rest, s' ≤ levenshtein_distance q x)
      ∧ b' ∈ a :: rest
      ∧ suggestEnvironment m q = (if 2 * s' ≤ q.length then some b' else some a) := by
  have hentry : bestLoop q (a :: rest) none none =
      bestLoop q rest (some a) (some (levenshtein_distance q a)) := by
    simp [bestLoop]
  obtain ⟨b', s', heq, hs', hle, hall, hmem⟩ :=
    bestLoop_invariant q rest a (levenshtein_distance q a) rfl
  refine ⟨b', s', by rw [hentry, heq], hs', ?_, ?_, ?_⟩
  · intro x hx
    rcases List.mem_cons.mp hx with rfl | hm
    · exact hle
    · exact hall x hm
  · rcases hmem with rfl | hm
    · exact List.mem_cons_self _ _
    · exact List.mem_cons_of_mem _ hm
  · have hfp' : (a :: rest).find? (fun env => strStartsWith env q) = none := hnames ▸ hfp
    have hfc' : (a :: rest).find? (fun env => strContains env q) = none := hnames ▸ hfc
    unfold suggestEnvironment
    rw [if_neg (by simp [hF])]
    simp only [hnames, hfp', hfc', hentry, heq, decide_eq_true_eq]

/-! ## Claims about the registry -/

/-- C2.  Validation of a registered name succeeds without consulting the
filesystem; an unregistered name whose conventional vars or backend file
exists is registered on the fly and succeeds; otherwise validation fails with
a message containing `not found` that lists every known environment name, or
states that none exist. -/
theorem C2_validate_environment (w : World) (m : EnvironmentManager) (n : String) :
    (∀ e, getEnvironment m n = some e → validateEnvironment w m n = ((true, none), m))
    ∧ (getEnvironment m n = none →
        (isFile w (pathJoin m.vars_dir (n ++ ".tfvars"))
          || isFile w (pathJoin m.vars_dir (n ++ ".tfbackend"))) = true →
        validateEnvironment w m n =
          ((true, none),
           { m with environments :=
               dictInsert m.environments n (conventionalEnvironment m.vars_dir n) })
        ∧ getEnvironment (validateEnvironment w m n).2 n =
            some (conventionalEnvironment m.vars_dir n))
    ∧ (getEnvironment m n = none →
        (isFile w (pathJoin m.vars_dir (n ++ ".tfvars"))
          || isFile w (pathJoin m.vars_dir (n ++ ".tfbackend"))) = false →
        ∃ msg, validateEnvironment w m n = ((false, some msg), m)
          ∧ strContains msg "not found" = true
          ∧ (∀ e ∈ getEnvironmentNames m, strContains msg e = true)
          ∧ (getEnvironmentNames m = [] →
              msg = "Environment \x27" ++ n ++
                "\x27 not found. No environments available in " ++ m.vars_dir ++ "/")) := by
  refine ⟨?_, ?_, ?_⟩
  · intro e he
    unfold validateEnvironment
    rw [he]
  · intro hn hex
    have hv : validateEnvironment w m n =
        ((true, none),
         { m with environments :=
             dictInsert m.environments n (conventionalEnvironment m.vars_dir n) }) := by
      unfold validateEnvironment conventionalEnvironment
      rw [hn]
      simp only [hex, if_true]
    refine ⟨hv, ?_⟩
    rw [hv]
    exact getEnvironment_insert_self m n _
  · intro hn hex
    unfold validateEnvironment
    rw [hn]
    simp only [hex, Bool.false_eq_true, if_false]
    by_cases hemp : (getEnvironmentNames m).isEmpty
    · rw [if_pos hemp]
      refine ⟨_, rfl, ?_, ?_, fun _ => rfl⟩
      · apply strContains_of_infix
        show _ <:+: ((("Environment \x27" ++ n) ++
          "\x27 not found. No environments available in ") ++ m.vars_dir ++ "/").data
        rw [strData_append, strData_append, strData_append]
        apply infix_append_right
        apply infix_append_right
        apply infix_append_left
        exact ⟨"\x27 ".data, ". No environments available in ".data, by decide⟩
      · intro e hme
        have : getEnvironmentNames m = [] := List.isEmpty_iff.mp hemp
        rw [this] at hme
        cases hme
    · rw [if_neg hemp]
      refine ⟨_, rfl, ?_, ?_, ?_⟩
      · apply strContains_of_infix
        show _ <:+: ((("Environment \x27" ++ n) ++
          "\x27 not found. Available environments: ") ++
            commaJoin (getEnvironmentNames m)).data
        rw [strData_append, strData_append]
        apply infix_append_right
        apply infix_append_left
        exact ⟨"\x27 ".data, ". Available environments: ".data, by decide⟩
      · intro e hme
        apply strContains_of_infix
        show _ <:+: ((("Environment \x27" ++ n) ++
          "\x27 not found. Available environments: ") ++
            commaJoin (getEnvironmentNames m)).data
        rw [strData_append]
        exact infix_append_left _ _ _ (mem_infix_commaJoin e _ hme)
      · intro hcontra
        exact absurd (List.isEmpty_iff.mpr hcontra) (by simpa using hemp)

/-- C2 witness: an unknown name against an empty registry with no files. -/
theorem C2_witness :
    ∃ msg, validateEnvironment ⟨[], [], []⟩ ⟨"vars", []⟩ "dev" =
        ((false, some msg), ⟨"vars", []⟩)
      ∧ strContains msg "not found" = true := by
  obtain ⟨msg, h1, h2, _, _⟩ :=
    (C2_validate_environment ⟨[], [], []⟩ ⟨"vars", []⟩ "dev").2.2 rfl rfl
  exact ⟨msg, h1, h2⟩

/-- C3.  Suggestion tiers: absent for an empty registry and never absent for
a non-empty one; else the first sorted name with the query as a prefix; else
the first sorted name containing it; else a minimum-Levenshtein name when the
minimum distance is at most half the query length (Python float division:
`2·d ≤ len q`); else the first name alphabetically.  The spec's example:
`suggest_environment("de")` over `{dev, prod}` is `dev`. -/
theorem C3_suggest_tiers (m : EnvironmentManager) (q : String) :
    (m.environments = [] → suggestEnvironment m q = none)
    ∧ (m.environments ≠ [] → (suggestEnvironment m q).isSome = true)
    ∧ (∀ e, (getEnvironmentNames m).find? (fun v => strStartsWith v q) = some e →
        suggestEnvironment m q = some e)
    ∧ ((getEnvironmentNames m).find? (fun v => strStartsWith v q) = none →
        ∀ e, (getEnvironmentNames m).find? (fun v => strContains v q) = some e →
          suggestEnvironment m q = some e)
    ∧ ((getEnvironmentNames m).find? (fun v => strStartsWith v q) = none →
        (getEnvironmentNames m).find? (fun v => strContains v q) = none →
        m.environments ≠ [] →
        ∃ e, suggestEnvironment m q = some e ∧ e ∈ getEnvironmentNames m
          ∧ ((∃ x ∈ getEnvironmentNames m, 2 * levenshtein_distance q x ≤ q.length) →
              (∀ x ∈ getEnvironmentNames m,
                levenshtein_distance q e ≤ levenshtein_distance q x)
              ∧ 2 * levenshtein_distance q e ≤ q.length)
          ∧ ((∀ x ∈ getEnvironmentNames m, ¬ 2 * levenshtein_distance q x ≤ q.length) →
              (getEnvironmentNames m).head? = some e))
    ∧ suggestEnvironment devProdManager "de" = some "dev" := by
  have hnonempty : m.environments ≠ [] →
      ∃ a rest, getEnvironmentNames m = a :: rest := by
    intro hne
    cases hn : getEnvironmentNames m with
    | cons a rest => exact ⟨a, rest, rfl⟩
    | nil =>
        exfalso
        have hlen : (getEnvironmentNames m).length = m.environments.length := by
          unfold getEnvironmentNames
          rw [length_sortStrings, List.length_map]
        rw [hn] at hlen
        exact hne (List.length_eq_zero.mp hlen.symm)
  have hFalse : m.environments ≠ [] → m.environments.isEmpty = false := by
    intro hne
    cases henv : m.environments with
    | nil => exact absurd henv hne
    | cons p ps => rfl
  have hOfNames : ∀ e, (getEnvironmentNames m).find? (fun v => strStartsWith v q) = some e ∨
        (getEnvironmentNames m).find? (fun v => strContains v q) = some e →
      m.environments ≠ [] := by
    intro e he hemp
    have : getEnvironmentNames m = [] := by
      unfold getEnvironmentNames
      rw [hemp]
      rfl
    rw [this] at he
    rcases he with h | h <;> cases h
  refine ⟨?_, ?_, ?_, ?_, ?_, by decide⟩
  · intro hemp
    unfold suggestEnvironment
    rw [if_pos (by rw [hemp]; rfl)]
  · intro hne
    obtain ⟨a, rest, hnames⟩ := hnonempty hne
    cases hfp : (getEnvironmentNames m).find? (fun v => strStartsWith v q) with
    | some e =>
        have hfp' : (a :: rest).find? (fun v => strStartsWith v q) = some e := hnames ▸ hfp
        unfold suggestEnvironment
        rw [if_neg (by simp [hFalse hne])]
        simp [hnames, hfp']
    | none =>
        cases hfc : (getEnvironmentNames m).find? (fun v => strContains v q) with
        | some e =>
            have hfp' : (a :: rest).find? (fun v => strStartsWith v q) = none := hnames ▸ hfp
            have hfc' : (a :: rest).find? (fun v => strContains v q) = some e := hnames ▸ hfc
            unfold suggestEnvironment
            rw [if_neg (by simp [hFalse hne])]
            simp [hnames, hfp', hfc']
        | none =>
            obtain ⟨b', s', _, _, _, _, hsug⟩ :=
              suggest_lev_branch m q hfp hfc (hFalse hne) a rest hnames
            rw [hsug]
            split <;> rfl
  · intro e he
    have hne := hOfNames e (Or.inl he)
    obtain ⟨a, rest, hnames⟩ := hnonempty hne
    have he' : (a :: rest).find? (fun v => strStartsWith v q) = some e := hnames ▸ he
    unfold suggestEnvironment
    rw [if_neg (by simp [hFalse hne])]
    simp [hnames, he']
  · intro hfp e he
    have hne := hOfNames e (Or.inr he)
    obtain ⟨a, rest, hnames⟩ := hnonempty hne
    have hfp' : (a :: rest).find? (fun v => strStartsWith v q) = none := hnames ▸ hfp
    have he' : (a :: rest).find? (fun v => strContains v q) = some e := hnames ▸ he
    unfold suggestEnvironment
    rw [if_neg (by simp [hFalse hne])]
    simp [hnames, hfp', he']
  · intro hfp hfc hne
    obtain ⟨a, rest, hnames⟩ := hnonempty hne
    obtain ⟨b', s', _, hs', hall, hmem, hsug⟩ :=
      suggest_lev_branch m q hfp hfc (hFalse hne) a rest hnames
    by_cases hth : 2 * s' ≤ q.length
    · refine ⟨b', by rw [hsug, if_pos hth], by rw [hnames]; exact hmem, ?_, ?_⟩
      · intro _
        constructor
        · intro x hx
          rw [← hs']
          exact hall x (hnames ▸ hx)
        · rw [← hs']; exact hth
      · intro hallfail
        exfalso
        have hb'mem : b' ∈ getEnvironmentNames m := hnames ▸ hmem
        exact hallfail b' hb'mem (hs' ▸ hth)
    · refine ⟨a, by rw [hsug, if_neg hth], by rw [hnames]; exact List.mem_cons_self _ _, ?_, ?_⟩
      · intro hexists
        exfalso
        obtain ⟨x, hx, hxle⟩ := hexists
        have : s' ≤ levenshtein_distance q x := hall x (hnames ▸ hx)
        exact hth (le_trans (Nat.mul_le_mul_left 2 this) hxle)
      · intro _
        rw [hnames]
        rfl

/-- C3 witness: the empty registry yields no suggestion. -/
theorem C3_witness : suggestEnvironment ⟨"vars", []⟩ "x" = none :=
  (C3_suggest_tiers ⟨"vars", []⟩ "x").1 rfl

/-! ## Levenshtein lemmas

The source DP runs over prefixes of `s1` (rows) and `s2` (columns); with `P`
and `Q` the reversed processed prefixes, each cell holds `levRef P Q`, and the
cell update is exactly the head recursion of `levRef`.  The final cell is then
`levRef s1.reverse s2.reverse`, and the two-ended recurrence
(`levRef_append`) transfers the head recursion to the last characters, giving
reversal invariance and hence agreement with `levRef` itself. -/

theorem levRef_nil_left (t : List Char) : levRef [] t = t.length := by
  simp [levRef]

theorem levRef_nil_right (s : List Char) : levRef s [] = s.length := by
  cases s <;> simp [levRef]

theorem levRef_cons_cons (c1 c2 : Char) (s t : List Char) :
    levRef (c1 :: s) (c2 :: t) =
      min (levRef s (c2 :: t) + 1)
        (min (levRef (c1 :: s) t + 1) (levRef s t + (if c1 = c2 then 0 else 1))) := by
  simp [levRef]

theorem levRef_append_aux (a b : Char) :
    ∀ n : Nat, ∀ s t : List Char, s.length + t.length = n →
      levRef (s ++ [a]) (t ++ [b]) =
        min (levRef s (t ++ [b]) + 1)
          (min (levRef (s ++ [a]) t + 1) (levRef s t + (if a = b then 0 else 1))) := by
  intro n
  induction n using Nat.strong_induction_on with
  | _ n ih =>
    intro s t hn
    cases s with
    | nil =>
        cases t with
        | nil =>
            simp only [List.nil_append]
            rw [levRef_cons_cons]
        | cons c t' =>
            simp only [List.length_nil, List.length_cons, Nat.zero_add] at hn
            simp only [List.nil_append, List.cons_append]
            rw [levRef_cons_cons a c [] (t' ++ [b]), levRef_cons_cons a c [] t']
            have h1 := ih t'.length (by omega) [] t' (by simp)
            simp only [List.nil_append] at h1
            rw [h1]
            simp only [levRef_nil_left, List.length_append, List.length_cons,
              List.length_nil, List.length]
            generalize (if a = b then (0 : Nat) else 1) = p
            generalize (if a = c then (0 : Nat) else 1) = q
            apply le_antisymm <;>
              simp only [le_min_iff, min_le_iff, add_le_add_iff_right] <;> omega
    | cons a' s' =>
        cases t with
        | nil =>
            simp only [List.length_nil, List.length_cons, Nat.add_zero] at hn
            simp only [List.nil_append, List.cons_append]
            rw [levRef_cons_cons a' b (s' ++ [a]) [], levRef_cons_cons a' b s' []]
            have h1 := ih s'.length (by omega) s' [] (by simp)
            simp only [List.nil_append] at h1
            rw [h1]
            simp only [levRef_nil_right, List.length_append, List.length_cons,
              List.length_nil, List.length]
            generalize (if a = b then (0 : Nat) else 1) = p
            generalize (if a' = b then (0 : Nat) else 1) = q
            apply le_antisymm <;>
              simp only [le_min_iff, min_le_iff, add_le_add_iff_right] <;> omega
        | cons c t' =>
            simp only [List.length_cons] at hn
            simp only [List.cons_append]
            rw [levRef_cons_cons a' c (s' ++ [a]) (t' ++ [b]),
                levRef_cons_cons a' c s' (t' ++ [b]),
                levRef_cons_cons a' c (s' ++ [a]) t',
                levRef_cons_cons a' c s' t']
            have h1 := ih (s'.length + (t'.length + 1)) (by omega) s' (c :: t') (by simp)
            have h2 := ih ((s'.length + 1) + t'.length) (by omega) (a' :: s') t' (by simp)
            have h3 := ih (s'.length + t'.length) (by omega) s' t' (by simp)
            simp only [List.cons_append] at h1 h2
            rw [h1, h2, h3]
            generalize (if a = b then (0 : Nat) else 1) = p
            generalize (if a' = c then (0 : Nat) else 1) = q
            apply le_antisymm <;>
              simp only [le_min_iff, min_le_iff, add_le_add_iff_right] <;> omega

theorem levRef_append (a b : Char) (s t : List Char) :
    levRef (s ++ [a]) (t ++ [b]) =
      min (levRef s (t ++ [b]) + 1)
        (min (levRef (s ++ [a]) t + 1) (levRef s t + (if a = b then 0 else 1))) :=
  levRef_append_aux a b (s.length + t.length) s t rfl

theorem levRef_reverse_aux :
    ∀ n : Nat, ∀ s t : List Char, s.length + t.length = n →
      levRef s.reverse t.reverse = levRef s t := by
  intro n
  induction n using Nat.strong_induction_on with
  | _ n ih =>
    intro s t hn
    cases s with
    | nil => simp [levRef_nil_left]
    | cons a s' =>
        cases t with
        | nil => simp [levRef_nil_right]
        | cons b t' =>
            simp only [List.length_cons] at hn
            rw [List.reverse_cons, List.reverse_cons, levRef_append]
            have h1 : levRef s'.reverse (t'.reverse ++ [b]) = levRef s' (b :: t') := by
              rw [← List.reverse_cons]
              exact ih (s'.length + (t'.length + 1)) (by omega) s' (b :: t') (by simp)
            have h2 : levRef (s'.reverse ++ [a]) t'.reverse = levRef (a :: s') t' := by
              rw [← List.reverse_cons]
              exact ih ((s'.length + 1) + t'.length) (by omega) (a :: s') t' (by simp)
            have h3 : levRef s'.reverse t'.reverse = levRef s' t' :=
              ih (s'.length + t'.length) (by omega) s' t' rfl
            rw [h1, h2, h3, levRef_cons_cons]

theorem levRef_reverse (s t : List Char) : levRef s.reverse t.reverse = levRef s t :=
  levRef_reverse_aux (s.length + t.length) s t rfl

theorem refRow_cons_form (P Q : List Char) (rem : List Char) :
    ∃ tl, refRow P Q rem = levRef P Q :: tl := by
  cases rem <;> exact ⟨_, rfl⟩

/-- One sweep of the inner loop turns the reference row for prefix `P` into
the reference row for prefix `c1 :: P`. -/
theorem levInner_refRow (c1 : Char) (P : List Char) :
    ∀ (rem Q : List Char),
      refRow (c1 :: P) Q rem =
        levRef (c1 :: P) Q :: levInnerLoop c1 rem (refRow P Q rem) (levRef (c1 :: P) Q) := by
  intro rem
  induction rem with
  | nil => intro Q; simp [refRow, levInnerLoop]
  | cons c2 rest ih =>
      intro Q
      obtain ⟨tl, htl⟩ := refRow_cons_form P (c2 :: Q) rest
      have hrowQ : refRow P Q (c2 :: rest) = levRef P Q :: (levRef P (c2 :: Q) :: tl) := by
        rw [show refRow P Q (c2 :: rest) = levRef P Q :: refRow P (c2 :: Q) rest from rfl, htl]
      rw [hrowQ]
      rw [show refRow (c1 :: P) Q (c2 :: rest) =
          levRef (c1 :: P) Q :: refRow (c1 :: P) (c2 :: Q) rest from rfl]
      have hstep : levInnerLoop c1 (c2 :: rest) (levRef P Q :: levRef P (c2 :: Q) :: tl)
          (levRef (c1 :: P) Q) =
          levRef (c1 :: P) (c2 :: Q) ::
            levInnerLoop c1 rest (levRef P (c2 :: Q) :: tl) (levRef (c1 :: P) (c2 :: Q)) := by
        rw [levRef_cons_cons c1 c2 P Q]
        rfl
      rw [hstep, ← htl, ← ih (c2 :: Q)]

/-- The outer loop carries the reference row across the processed prefix of
`s1` (reversed into `P`). -/
theorem levOuter_refRow (s2 : List Char) :
    ∀ (s1rem P : List Char),
      levOuterLoop s1rem s2 (refRow P [] s2) P.length =
        refRow (s1rem.reverse ++ P) [] s2 := by
  intro s1rem
  induction s1rem with
  | nil => intro P; simp [levOuterLoop]
  | cons c1 rest ih =>
      intro P
      have hlen : levRef (c1 :: P) [] = P.length + 1 := by
        rw [levRef_nil_right]
        rfl
      have hcur : (P.length + 1) :: levInnerLoop c1 s2 (refRow P [] s2) (P.length + 1) =
          refRow (c1 :: P) [] s2 := by
        rw [← hlen]
        exact (levInner_refRow c1 P s2 []).symm
      rw [show levOuterLoop (c1 :: rest) s2 (refRow P [] s2) P.length =
          levOuterLoop rest s2
            ((P.length + 1) :: levInnerLoop c1 s2 (refRow P [] s2) (P.length + 1))
            (P.length + 1) from rfl]
      rw [hcur]
      have hih := ih (c1 :: P)
      rw [show (c1 :: P).length = P.length + 1 from rfl] at hih
      rw [hih]
      congr 1
      simp

theorem refRow_nil_eq_range' :
    ∀ (rem Q : List Char), refRow [] Q rem = List.range' Q.length (rem.length + 1) := by
  intro rem
  induction rem with
  | nil =>
      intro Q
      rw [show refRow [] Q [] = [levRef [] Q] from rfl, levRef_nil_left]
      rfl
  | cons c2 rest ih =>
      intro Q
      rw [show refRow [] Q (c2 :: rest) = levRef [] Q :: refRow [] (c2 :: Q) rest from rfl,
          ih (c2 :: Q), levRef_nil_left]
      rw [show (c2 :: Q).length = Q.length + 1 from rfl]
      rw [show (c2 :: rest).length = rest.length + 1 from rfl]
      conv_rhs => rw [List.range'_succ]

theorem getLastD_cons_cons (a b : Nat) (l : List Nat) (d : Nat) :
    (a :: b :: l).getLastD d = (b :: l).getLastD d := by
  simp [List.getLastD]

theorem refRow_getLastD (P : List Char) :
    ∀ (rem Q : List Char), (refRow P Q rem).getLastD 0 = levRef P (rem.reverse ++ Q) := by
  intro rem
  induction rem with
  | nil => intro Q; simp [refRow]
  | cons c2 rest ih =>
      intro Q
      rw [show refRow P Q (c2 :: rest) = levRef P Q :: refRow P (c2 :: Q) rest from rfl]
      obtain ⟨tl, htl⟩ := refRow_cons_form P (c2 :: Q) rest
      rw [htl, getLastD_cons_cons, ← htl, ih (c2 :: Q)]
      congr 1
      simp

/-- The DP body computes the reference distance of the reversed inputs. -/
theorem levBody_eq (s1 s2 : List Char) : levBody s1 s2 = levRef s1.reverse s2.reverse := by
  unfold levBody
  by_cases h2 : s2.length = 0
  · have hnil : s2 = [] := List.length_eq_zero.mp h2
    subst hnil
    simp [levRef_nil_right]
  · rw [if_neg h2]
    have hinit : List.range (s2.length + 1) = refRow [] [] s2 := by
      rw [refRow_nil_eq_range']
      simp [List.range_eq_range']
    rw [hinit]
    have houter := levOuter_refRow s2 s1 []
    rw [show ([] : List Char).length = 0 from rfl, List.append_nil] at houter
    rw [houter, refRow_getLastD, List.append_nil]

theorem levRef_comm_aux :
    ∀ n : Nat, ∀ s t : List Char, s.length + t.length = n →
      levRef s t = levRef t s := by
  intro n
  induction n using Nat.strong_induction_on with
  | _ n ih =>
    intro s t hn
    cases s with
    | nil => simp [levRef_nil_left, levRef_nil_right]
    | cons a s' =>
        cases t with
        | nil => simp [levRef_nil_left, levRef_nil_right]
        | cons b t' =>
            simp only [List.length_cons] at hn
            rw [levRef_cons_cons a b s' t', levRef_cons_cons b a t' s']
            have h1 : levRef s' (b :: t') = levRef (b :: t') s' :=
              ih (s'.length + (t'.length + 1)) (by omega) s' (b :: t') (by simp)
            have h2 : levRef (a :: s') t' = levRef t' (a :: s') :=
              ih ((s'.length + 1) + t'.length) (by omega) (a :: s') t' (by simp)
            have h3 : levRef s' t' = levRef t' s' :=
              ih (s'.length + t'.length) (by omega) s' t' rfl
            have hcost : (if a = b then (0 : Nat) else 1) = (if b = a then 0 else 1) := by
              by_cases h : a = b
              · rw [if_pos h, if_pos h.symm]
              · rw [if_neg h, if_neg (fun hc => h hc.symm)]
            rw [h1, h2, h3, hcost]
            generalize (if b = a then (0 : Nat) else 1) = p
            apply le_antisymm <;>
              simp only [le_min_iff, min_le_iff, add_le_add_iff_right] <;> omega

/-- C7.  For every pair of strings, the source's rolling-row dynamic program
`_levenshtein_distance` (including its argument swap) computes exactly the
classic single-character-edit Levenshtein distance as given by the standard
recursive reference definition `levRef`. -/
theorem C7_levenshtein_refines_reference (s1 s2 : String) :
    levenshtein_distance s1 s2 = levRef s1.data s2.data := by
  unfold levenshtein_distance
  by_cases h : s1.length < s2.length
  · rw [if_pos h, levBody_eq, levRef_reverse]
    exact levRef_comm_aux (s2.data.length + s1.data.length) s2.data s1.data rfl
  · rw [if_neg h, levBody_eq, levRef_reverse]

/-! ## Path and filesystem lemmas -/

theorem pathJoin_ne_dir (d x : String) : pathJoin d x ≠ d := by
  intro h
  have hlen := congrArg String.length h
  simp only [pathJoin, String.length_append] at hlen
  have h1 : ("/" : String).length = 1 := rfl
  omega

theorem pathJoin_tfvars_ne_tfbackend (d n : String) :
    pathJoin d (n ++ ".tfvars") ≠ pathJoin d (n ++ ".tfbackend") := by
  intro h
  have hlen := congrArg String.length h
  simp only [pathJoin, String.length_append] at hlen
  have h1 : (".tfvars" : String).length = 7 := rfl
  have h2 : (".tfbackend" : String).length = 10 := rfl
  omega

theorem isFile_iff_mem (w : World) (p : String) :
    isFile w p = true ↔ p ∈ w.files.map Prod.fst := by
  unfold isFile
  rw [List.any_eq_true]
  constructor
  · rintro ⟨f, hf, hbeq⟩
    exact List.mem_map.mpr ⟨f, hf, by simpa using hbeq⟩
  · rintro hm
    obtain ⟨f, hf, rfl⟩ := List.mem_map.mp hm
    exact ⟨f, hf, by simp⟩

/-- Success characterisation of `os.makedirs` when no fault is queued. -/
theorem makedirsOp_ok (w : World) (d : String) (hf : w.failures = []) :
    ∃ w₁, makedirsOp w d = .ok w₁
      ∧ w₁.failures = [] ∧ w₁.files = w.files
      ∧ isDir w₁ d = true
      ∧ (∀ q, q ≠ d → isDir w₁ q = isDir w q) := by
  obtain ⟨fls, drs, fas⟩ := w
  change fas = [] at hf
  subst hf
  refine ⟨⟨fls, if (drs.any fun x => x == d) = true then drs else drs ++ [d], []⟩,
    rfl, rfl, rfl, ?_, ?_⟩
  · by_cases hc : (drs.any fun x => x == d) = true
    · simp only [isDir, if_pos hc]
      exact hc
    · simp only [isDir, if_neg hc]
      simp [List.any_append]
  · intro q hq
    by_cases hc : (drs.any fun x => x == d) = true
    · simp only [isDir, if_pos hc]
    · simp only [isDir, if_neg hc]
      simp [List.any_append, beq_eq_false_iff_ne.mpr (fun hdq : d = q => hq hdq.symm)]

/-- Success characterisation of the guarded stub write (skip when the path
exists, else write) when no fault is queued and no directory sits at `p`. -/
theorem ensureFileOp (w : World) (p c : String) (hf : w.failures = [])
    (hd : isDir w p = false) :
    ∃ w', (if pathExists w p = true then Except.ok w else writeFileOp w p c) =
        Except.ok (ε := String × World) w'
      ∧ w'.failures = [] ∧ w'.dirs = w.dirs
      ∧ (isFile w p = true → w'.files = w.files)
      ∧ (isFile w p = false → w'.files = w.files ++ [(p, c)])
      ∧ isFile w' p = true
      ∧ (∀ q, q ≠ p → isFile w' q = isFile w q)
      ∧ (∀ q cq, lookupFile w q = some cq → lookupFile w' q = some cq) := by
  obtain ⟨fls, drs, fas⟩ := w
  change fas = [] at hf
  subst hf
  change (drs.any fun x => x == p) = false at hd
  by_cases hp : (fls.any fun f => f.1 == p) = true
  · have hpe : pathExists ⟨fls, drs, []⟩ p = true := by
      simp only [pathExists, isFile, hp, Bool.true_or]
    refine ⟨⟨fls, drs, []⟩, by rw [if_pos hpe], rfl, rfl, fun _ => rfl, ?_, hp,
      fun q _ => rfl, fun q cq h => h⟩
    intro hcontra
    change (fls.any fun f => f.1 == p) = false at hcontra
    rw [hp] at hcontra
    exact absurd hcontra (by decide)
  · have hpf : (fls.any fun f => f.1 == p) = false := by
      cases hb : fls.any fun f => f.1 == p with
      | true => exact absurd hb hp
      | false => rfl
    have hpe : pathExists ⟨fls, drs, []⟩ p = false := by
      simp only [pathExists, isFile, isDir, hpf, hd, Bool.or_self]
    refine ⟨⟨fls ++ [(p, c)], drs, []⟩, ?_, rfl, rfl, ?_, fun _ => rfl, ?_, ?_, ?_⟩
    · rw [if_neg (by rw [hpe]; exact Bool.false_ne_true)]
      show writeFileOp ⟨fls, drs, []⟩ p c = _
      unfold writeFileOp popFailure
      simp only [hpf, Bool.false_eq_true, if_false]
    · intro hcontra
      change (fls.any fun f => f.1 == p) = true at hcontra
      rw [hpf] at hcontra
      exact absurd hcontra (by decide)
    · show ((fls ++ [(p, c)]).any fun f => f.1 == p) = true
      simp [List.any_append]
    · intro q hq
      show ((fls ++ [(p, c)]).any fun f => f.1 == q) = (fls.any fun f => f.1 == q)
      simp [List.any_append, beq_eq_false_iff_ne.mpr (fun hpq : p = q => hq hpq.symm)]
    · intro q cq h
      show ((fls ++ [(p, c)]).find? fun f => f.1 == q).map (fun f => f.2) = some cq
      change (fls.find? fun f => f.1 == q).map (fun f => f.2) = some cq at h
      cases hfind : fls.find? fun f => f.1 == q with
      | none => rw [hfind] at h; cases h
      | some pr =>
          rw [find?_append_left _ fls _ pr hfind]
          rw [hfind] at h
          exact h

/-- Success characterisation of `create_environment_template`'s `try` body
when no fault is queued and neither conventional path is occupied by a
directory: the directory is ensured, each stub is written only when its file
is absent, existing file content is never overwritten, and afterwards both
files exist. -/
theorem createImpl_ok (w : World) (d n : String) (hf : w.failures = [])
    (hd1 : isDir w (pathJoin d (n ++ ".tfvars")) = false)
    (hd2 : isDir w (pathJoin d (n ++ ".tfbackend")) = false) :
    ∃ w₃, createEnvironmentImpl w d n = .ok (w₃, conventionalEnvironment d n)
      ∧ w₃.failures = []
      ∧ isDir w₃ d = true
      ∧ (∀ p c, lookupFile w p = some c → lookupFile w₃ p = some c)
      ∧ (isFile w (pathJoin d (n ++ ".tfvars")) = false →
          lookupFile w₃ (pathJoin d (n ++ ".tfvars")) = some (varsStubContent n))
      ∧ (isFile w (pathJoin d (n ++ ".tfbackend")) = false →
          lookupFile w₃ (pathJoin d (n ++ ".tfbackend")) = some (backendStubContent n))
      ∧ isFile w₃ (pathJoin d (n ++ ".tfvars")) = true
      ∧ isFile w₃ (pathJoin d (n ++ ".tfbackend")) = true := by
  have hvfd : pathJoin d (n ++ ".tfvars") ≠ d := pathJoin_ne_dir d _
  have hbfd : pathJoin d (n ++ ".tfbackend") ≠ d := pathJoin_ne_dir d _
  have hvfbf : pathJoin d (n ++ ".tfvars") ≠ pathJoin d (n ++ ".tfbackend") :=
    pathJoin_tfvars_ne_tfbackend d n
  obtain ⟨w₁, hmk, hf₁, hfiles₁, hdird, hdir_other⟩ := makedirsOp_ok w d hf
  have hdvf₁ : isDir w₁ (pathJoin d (n ++ ".tfvars")) = false := by
    rw [hdir_other _ hvfd]; exact hd1
  have hdbf₁ : isDir w₁ (pathJoin d (n ++ ".tfbackend")) = false := by
    rw [hdir_other _ hbfd]; exact hd2
  have hisfile₁ : ∀ q, isFile w₁ q = isFile w q := by
    intro q; unfold isFile; rw [hfiles₁]
  have hlookup₁ : ∀ q, lookupFile w₁ q = lookupFile w q := by
    intro q; unfold lookupFile; rw [hfiles₁]
  obtain ⟨w₂, hw₂eq, hf₂, hdirs₂, hsame₂, hwrite₂, hisfileP₂, hother₂, hpreserve₂⟩ :=
    ensureFileOp w₁ (pathJoin d (n ++ ".tfvars")) (varsStubContent n) hf₁ hdvf₁
  have hdbf₂ : isDir w₂ (pathJoin d (n ++ ".tfbackend")) = false := by
    unfold isDir; rw [hdirs₂]; exact hdbf₁
  obtain ⟨w₃, hw₃eq, hf₃, hdirs₃, hsame₃, hwrite₃, hisfileP₃, hother₃, hpreserve₃⟩ :=
    ensureFileOp w₂ (pathJoin d (n ++ ".tfbackend")) (backendStubContent n) hf₂ hdbf₂
  have himpl : createEnvironmentImpl w d n = .ok (w₃, conventionalEnvironment d n) := by
    unfold createEnvironmentImpl
    simp only [hmk, hw₂eq, hw₃eq]
    rfl
  refine ⟨w₃, himpl, hf₃, ?_, ?_, ?_, ?_, ?_, hisfileP₃⟩
  · unfold isDir
    rw [hdirs₃, hdirs₂]
    exact hdird
  · intro p c hp
    exact hpreserve₃ p c (hpreserve₂ p c ((hlookup₁ p) ▸ hp))
  · intro habs
    have habs₁ : isFile w₁ (pathJoin d (n ++ ".tfvars")) = false := by
      rw [hisfile₁]; exact habs
    have hfind₁ : (w₁.files.find? fun f => f.1 == pathJoin d (n ++ ".tfvars")) = none :=
      any_eq_false_find?_none _ _ habs₁
    have hlook₂ : lookupFile w₂ (pathJoin d (n ++ ".tfvars")) = some (varsStubContent n) := by
      unfold lookupFile
      rw [hwrite₂ habs₁, find?_append_of_none _ _ _ hfind₁]
      simp [List.find?]
    exact hpreserve₃ _ _ hlook₂
  · intro habs
    have habs₂ : isFile w₂ (pathJoin d (n ++ ".tfbackend")) = false := by
      rw [hother₂ _ (fun hc => hvfbf hc.symm), hisfile₁]
      exact habs
    have hfind₂ : (w₂.files.find? fun f => f.1 == pathJoin d (n ++ ".tfbackend")) = none :=
      any_eq_false_find?_none _ _ habs₂
    unfold lookupFile
    rw [hwrite₃ habs₂, find?_append_of_none _ _ _ hfind₂]
    simp [List.find?]
  · rw [hother₃ _ hvfbf]
    exact hisfileP₂

/-! ## Glob and stem lemmas -/

theorem dropPrefixL_append : ∀ p s : List Char, dropPrefixL p (p ++ s) = some s := by
  intro p
  induction p with
  | nil => intro s; rfl
  | cons c cs ih => intro s; simp [dropPrefixL, ih]

theorem takeWhile_all_append (p : Char → Bool) :
    ∀ (xs : List Char) (y : Char) (ys : List Char),
      (∀ c ∈ xs, p c = true) → p y = false →
      (xs ++ y :: ys).takeWhile p = xs := by
  intro xs
  induction xs with
  | nil =>
      intro y ys _ hy
      simp [List.takeWhile_cons, hy]
  | cons x xs ih =>
      intro y ys hall hy
      have hx : p x = true := hall x (by simp)
      simp only [List.cons_append, List.takeWhile_cons, hx, if_true]
      rw [ih y ys (fun c hc => hall c (by simp [hc])) hy]

theorem baseNameL_pathJoin (d b : String) (hb : ∀ c ∈ b.data, c ≠ '/') :
    baseNameL (pathJoin d b).data = b.data := by
  unfold baseNameL pathJoin
  rw [show ((d ++ "/") ++ b).data = (d.data ++ ['/']) ++ b.data from rfl]
  rw [List.reverse_append, List.reverse_append]
  simp only [List.reverse_cons, List.reverse_nil, List.nil_append, List.singleton_append]
  rw [takeWhile_all_append _ b.data.reverse '/' d.data.reverse ?hall ?hsep]
  · exact List.reverse_reverse _
  case hall =>
    intro c hc
    have hcmem : c ∈ b.data := List.mem_reverse.mp hc
    simpa using hb c hcmem
  case hsep => decide

theorem globMatch_pathJoin (d ext b : String) :
    globMatch d ext (pathJoin d b) =
      (isPrefixL ext.data.reverse b.data.reverse &&
        !(b.data.any fun c => c = '/') && !(isPrefixL ".".data b.data)) := by
  unfold globMatch pathJoin
  rw [show ((d ++ "/") ++ b).data = (d ++ "/").data ++ b.data from rfl]
  rw [dropPrefixL_append]

theorem pathStem_stage_tfvars (d : String) :
    pathStem (pathJoin d "stage.tfvars") = "stage" := by
  unfold pathStem
  rw [baseNameL_pathJoin d "stage.tfvars" (by decide)]
  decide

theorem globMatch_stage_tfvars (d : String) :
    globMatch d ".tfvars" (pathJoin d "stage.tfvars") = true := by
  rw [globMatch_pathJoin]
  decide

/-! ## Discovery fold lemmas -/

theorem fold1_invariant (w' : World) (d k : String) :
    ∀ (l : List String) (acc : EnvironmentManager),
      acc.vars_dir = d →
      (∀ p ∈ l, isFile w' p = true) →
      (∀ e, getEnvironment acc k = some e →
        e.name = k ∧ isFile w' e.vars_file = true ∧
          e.backend_file = pathJoin d (k ++ ".tfbackend")) →
      ((∃ p ∈ l, pathStem p = k) ∨ (getEnvironment acc k).isSome = true) →
      ((l.foldl discoverTfvarsStep acc).vars_dir = d ∧
        ∃ e, getEnvironment (l.foldl discoverTfvarsStep acc) k = some e
          ∧ e.name = k ∧ isFile w' e.vars_file = true
          ∧ e.backend_file = pathJoin d (k ++ ".tfbackend")) := by
  intro l
  induction l with
  | nil =>
      intro acc hacc _ hinv hdisj
      refine ⟨hacc, ?_⟩
      rcases hdisj with ⟨p, hp, _⟩ | hsome
      · cases hp
      · cases hge : getEnvironment acc k with
        | none => rw [hge] at hsome; cases hsome
        | some e => exact ⟨e, hge, hinv e hge⟩
  | cons p rest ih =>
      intro acc hacc hl hinv hdisj
      simp only [List.foldl_cons]
      have hstep_env : (discoverTfvarsStep acc p).environments =
          dictInsert acc.environments (pathStem p)
            ⟨pathStem p, p, pathJoin acc.vars_dir (pathStem p ++ ".tfbackend")⟩ := rfl
      have hstep_vd : (discoverTfvarsStep acc p).vars_dir = acc.vars_dir := rfl
      have hins : ∀ hk : pathStem p = k,
          getEnvironment (discoverTfvarsStep acc p) k =
            some ⟨pathStem p, p, pathJoin acc.vars_dir (pathStem p ++ ".tfbackend")⟩ := by
        intro hk
        unfold getEnvironment
        rw [hstep_env, hk, find?_dictInsert]
        rfl
      have hkeep : ∀ _ : pathStem p ≠ k,
          getEnvironment (discoverTfvarsStep acc p) k = getEnvironment acc k := by
        intro hk
        unfold getEnvironment
        rw [hstep_env, find?_dictInsert_other _ _ _ _ (fun hc => hk hc.symm)]
      have hinv₁ : ∀ e, getEnvironment (discoverTfvarsStep acc p) k = some e →
          e.name = k ∧ isFile w' e.vars_file = true ∧
            e.backend_file = pathJoin d (k ++ ".tfbackend") := by
        intro e he
        by_cases hk : pathStem p = k
        · rw [hins hk] at he
          cases he
          refine ⟨hk, hl p (by simp), ?_⟩
          rw [hacc, hk]
        · rw [hkeep hk] at he
          exact hinv e he
      have hdisj₁ : (∃ q ∈ rest, pathStem q = k) ∨
          (getEnvironment (discoverTfvarsStep acc p) k).isSome = true := by
        rcases hdisj with ⟨q, hq, hqs⟩ | hsome
        · rcases List.mem_cons.mp hq with rfl | hqr
          · right; rw [hins hqs]; rfl
          · by_cases hk : pathStem p = k
            · right; rw [hins hk]; rfl
            · left; exact ⟨q, hqr, hqs⟩
        · by_cases hk : pathStem p = k
          · right; rw [hins hk]; rfl
          · right; rw [hkeep hk]; exact hsome
      exact ih (discoverTfvarsStep acc p) (hstep_vd.trans hacc)
        (fun q hq => hl q (by simp [hq])) hinv₁ hdisj₁

theorem fold2_preserve (k : String) (e : Environment) :
    ∀ (l : List String) (acc : EnvironmentManager),
      getEnvironment acc k = some e →
      getEnvironment (l.foldl discoverBackendStep acc) k = some e := by
  intro l
  induction l with
  | nil => intro acc h; exact h
  | cons p rest ih =>
      intro acc h
      simp only [List.foldl_cons]
      apply ih
      unfold discoverBackendStep
      by_cases hc : (acc.environments.any fun q => q.1 == pathStem p) = true
      · rw [if_pos hc]; exact h
      · rw [if_neg hc]
        unfold getEnvironment at h ⊢
        cases hfind : acc.environments.find? fun q => q.1 == k with
        | none => rw [hfind] at h; cases h
        | some pr =>
            rw [find?_append_left _ _ _ pr hfind]
            rw [hfind] at h
            exact h

/-- C8.  `create_environment_template` writes each stub only when the file
does not already exist (never overwriting existing content), registers the
resulting environment, and converts any raised I/O error into a `False`
return with the registry untouched (the embedding is total, so nothing
propagates); after a successful `create_environment_template("stage")`, a
subsequent `_discover_environments` yields an environment named `stage`
whose two files exist and whose `is_valid` holds.  The directory
side-conditions exclude a directory squatting on a conventional file path. -/
theorem C8_create_template_roundtrip (w : World) (m : EnvironmentManager) (n : String) :
    (w.failures = [] →
      isDir w (pathJoin m.vars_dir (n ++ ".tfvars")) = false →
      isDir w (pathJoin m.vars_dir (n ++ ".tfbackend")) = false →
      ∃ w₃, createEnvironmentTemplate w m n =
          (true, w₃,
            { m with environments :=
                dictInsert m.environments n (conventionalEnvironment m.vars_dir n) })
        ∧ (∀ p c, lookupFile w p = some c → lookupFile w₃ p = some c)
        ∧ (isFile w (pathJoin m.vars_dir (n ++ ".tfvars")) = false →
            lookupFile w₃ (pathJoin m.vars_dir (n ++ ".tfvars")) = some (varsStubContent n))
        ∧ (isFile w (pathJoin m.vars_dir (n ++ ".tfbackend")) = false →
            lookupFile w₃ (pathJoin m.vars_dir (n ++ ".tfbackend")) =
              some (backendStubContent n))
        ∧ isFile w₃ (pathJoin m.vars_dir (n ++ ".tfvars")) = true
        ∧ isFile w₃ (pathJoin m.vars_dir (n ++ ".tfbackend")) = true
        ∧ getEnvironment (createEnvironmentTemplate w m n).2.2 n =
            some (conventionalEnvironment m.vars_dir n))
    ∧ (∀ msg wFail, createEnvironmentImpl w m.vars_dir n = .error (msg, wFail) →
        createEnvironmentTemplate w m n = (false, wFail, m))
    ∧ (w.failures = [] →
        isDir w (pathJoin m.vars_dir ("stage" ++ ".tfvars")) = false →
        isDir w (pathJoin m.vars_dir ("stage" ++ ".tfbackend")) = false →
        ∃ e, getEnvironment (discoverEnvironments
              (createEnvironmentTemplate w m "stage").2.1
              (createEnvironmentTemplate w m "stage").2.2) "stage" = some e
          ∧ e.name = "stage"
          ∧ e.is_valid (createEnvironmentTemplate w m "stage").2.1 = true) := by
  refine ⟨?_, ?_, ?_⟩
  · intro hf hd1 hd2
    obtain ⟨w₃, himpl, _, _, hpres, hwv, hwb, hfv, hfb⟩ := createImpl_ok w m.vars_dir n hf hd1 hd2
    have hct : createEnvironmentTemplate w m n =
        (true, w₃,
          { m with environments :=
              dictInsert m.environments n (conventionalEnvironment m.vars_dir n) }) := by
      unfold createEnvironmentTemplate
      simp only [himpl]
    refine ⟨w₃, hct, hpres, hwv, hwb, hfv, hfb, ?_⟩
    rw [hct]
    exact getEnvironment_insert_self m n _
  · intro msg wFail h
    unfold createEnvironmentTemplate
    simp only [h]
  · intro hf hd1 hd2
    obtain ⟨w₃, himpl, _, hdird, _, _, _, hfv, hfb⟩ :=
      createImpl_ok w m.vars_dir "stage" hf hd1 hd2
    have hct : createEnvironmentTemplate w m "stage" =
        (true, w₃,
          { m with environments := dictInsert m.environments "stage" (conventionalEnvironment m.vars_dir "stage") }) := by
      unfold createEnvironmentTemplate
      simp only [himpl]
    rw [hct]
    have hnormv : ("stage" ++ ".tfvars" : String) = "stage.tfvars" := rfl
    have hfv' : isFile w₃ (pathJoin m.vars_dir "stage.tfvars") = true := by
      rw [← hnormv]; exact hfv
    have hmem : pathJoin m.vars_dir "stage.tfvars" ∈
        (w₃.files.map Prod.fst).filter (globMatch m.vars_dir ".tfvars") :=
      List.mem_filter.mpr ⟨(isFile_iff_mem w₃ _).mp hfv', globMatch_stage_tfvars _⟩
    have hguard : (!(isDir w₃
        ({ m with environments := dictInsert m.environments "stage" (conventionalEnvironment m.vars_dir "stage") } :
          EnvironmentManager).vars_dir)) = false := by
      show (!(isDir w₃ m.vars_dir)) = false
      rw [hdird]
      rfl
    have hinv : ∀ e, getEnvironment
        ({ m with environments := dictInsert m.environments "stage" (conventionalEnvironment m.vars_dir "stage") } :
          EnvironmentManager) "stage" = some e →
        e.name = "stage" ∧ isFile w₃ e.vars_file = true ∧
          e.backend_file = pathJoin m.vars_dir ("stage" ++ ".tfbackend") := by
      intro e he
      rw [getEnvironment_insert_self] at he
      cases he
      exact ⟨rfl, hfv, rfl⟩
    obtain ⟨_, e, hge, hname, hvfile, hbackend⟩ :=
      fold1_invariant w₃ m.vars_dir "stage"
        ((w₃.files.map Prod.fst).filter (globMatch m.vars_dir ".tfvars"))
        { m with environments := dictInsert m.environments "stage" (conventionalEnvironment m.vars_dir "stage") }
        rfl
        (fun p hp => (isFile_iff_mem w₃ p).mpr (List.mem_filter.mp hp).1)
        hinv
        (Or.inl ⟨pathJoin m.vars_dir "stage.tfvars", hmem, pathStem_stage_tfvars _⟩)
    have hfinal := fold2_preserve "stage" e
      ((w₃.files.map Prod.fst).filter (globMatch m.vars_dir ".tfbackend")) _ hge
    refine ⟨e, ?_, hname, ?_⟩
    · unfold discoverEnvironments
      rw [if_neg (by rw [hguard]; exact Bool.false_ne_true)]
      exact hfinal
    · unfold Environment.is_valid
      rw [hvfile, hbackend, hfb]
      rfl

/-- C8 witness: creating `stage` from an empty world and registry, then
discovering, yields a valid `stage` environment. -/
theorem C8_witness :
    ∃ e, getEnvironment (discoverEnvironments
          (createEnvironmentTemplate ⟨[], [], []⟩ ⟨"vars", []⟩ "stage").2.1
          (createEnvironmentTemplate ⟨[], [], []⟩ ⟨"vars", []⟩ "stage").2.2) "stage" = some e
      ∧ e.name = "stage"
      ∧ e.is_valid (createEnvironmentTemplate ⟨[], [], []⟩ ⟨"vars", []⟩ "stage").2.1 = true :=
  (C8_create_template_roundtrip ⟨[], [], []⟩ ⟨"vars", []⟩ "stage").2.2 rfl rfl rfl

/-! ## Claims about the process runner -/

/-- C4.  On every spawn failure, `run_command` does not propagate the
exception and returns exactly `(1, "", description)`. -/
theorem C4_spawn_failure (env : Environment) (message : String) :
    runCommand (.raised message) env = (1, "", message) := rfl

/-- C10.  Error enrichment is applied only when the child's exit code is
non-zero; a child that exits 0 has its captured stderr returned verbatim,
even if that text matches a failure signature. -/
theorem C10_enrich_only_nonzero (env : Environment) (rc : Int) (stdout stderr : String) :
    (rc = 0 → runCommand (.completed rc stdout stderr) env = (rc, stdout, stderr))
    ∧ (rc ≠ 0 →
        runCommand (.completed rc stdout stderr) env =
          (rc, stdout, enhanceErrorOutput stderr env)) := by
  constructor
  · intro h; simp [runCommand, h]
  · intro h; simp [runCommand, h]

/-- C10 witness: a zero exit with signature-matching stderr stays verbatim. -/
theorem C10_witness :
    runCommand (.completed 0 "out" "S3 bucket \"b\" does not exist")
      ⟨"dev", "vars/dev.tfvars", "vars/dev.tfbackend"⟩ =
      (0, "out", "S3 bucket \"b\" does not exist") :=
  (C10_enrich_only_nonzero ⟨"dev", "vars/dev.tfvars", "vars/dev.tfbackend"⟩ 0 "out"
    "S3 bucket \"b\" does not exist").1 rfl

end Toffee
